import Mathlib

/-!
# go-redis: a shallow embedding of `main.go`

The server keeps one shared `store` (a Go `map[string]string`) and runs one
`client.serve` loop per connection.  The embedding follows one connection:

* Go strings and byte slices are lists of byte values (`Bytes`);
* the connection's read side is the list of bytes still to come, followed by
  end-of-stream; its write side is the list of bytes written so far;
* a call that can fail returns a `Result`: a value with the unread input, a Go
  `error` value, or a run-time panic;
* `uint64` and `int` values are natural numbers / integers with explicit
  `% 2^64` and explicit range tests;
* the only read failure is the end of the stream.

Run-time rule used for `make`: the runtime's `makeslice` panics when the memory
asked for, element size times number of elements, is above the allocator's
ceiling `maxAlloc` of `2^48` bytes (64-bit platform): `make([]byte, n)` panics
for `n > 2^48` and `make([]string, 0, n)`, with string headers of 16 bytes, for
`16 * n > 2^48`.  An allocation within the ceiling is taken to succeed: running
out of memory is not part of the model.
Writes to the connection are taken to succeed; log output is not modelled.
-/

namespace GoRedis

/-- A Go `string` / `[]byte`: the sequence of its byte values. -/
abbrev Bytes := List Nat

/-! ## Constants of the source -/

/-- The two bytes "\r\n". -/
def CRLF : Bytes := [13, 10]

/-- The string "GET". -/
def GET : Bytes := [71, 69, 84]

/-- The string "SET". -/
def SET : Bytes := [83, 69, 84]

/-- The string "+OK\r\n" (main.go:103). -/
def OK : Bytes := [43, 79, 75, 13, 10]

/-- The string "-ERR " (main.go:125). -/
def ERR : Bytes := [45, 69, 82, 82, 32]

/-- The string "GET expects 1 argument" (main.go:92). -/
def msgGetArity : Bytes :=
  [71, 69, 84, 32, 101, 120, 112, 101, 99, 116, 115, 32, 49, 32,
   97, 114, 103, 117, 109, 101, 110, 116]

/-- The string "SET expects 2 arguments" (main.go:99). -/
def msgSetArity : Bytes :=
  [83, 69, 84, 32, 101, 120, 112, 101, 99, 116, 115, 32, 50, 32,
   97, 114, 103, 117, 109, 101, 110, 116, 115]

/-- The string "unkonwn command: " exactly as spelled at main.go:105
(letters u-n-k-o-n-w-n). -/
def msgServeDefault : Bytes :=
  [117, 110, 107, 111, 110, 119, 110, 32, 99, 111, 109, 109, 97, 110, 100, 58, 32]

/-- The string "unknown command: " as spelled at main.go:167
(letters u-n-k-n-o-w-n). -/
def msgUnknownCommand : Bytes :=
  [117, 110, 107, 110, 111, 119, 110, 32, 99, 111, 109, 109, 97, 110, 100, 58, 32]

/-- The string "invalid argument count: " (main.go:155). -/
def msgInvalidCount : Bytes :=
  [105, 110, 118, 97, 108, 105, 100, 32, 97, 114, 103, 117, 109, 101, 110, 116, 32,
   99, 111, 117, 110, 116, 58, 32]

/-- The string "invalid argument length: " (main.go:173). -/
def msgInvalidLength : Bytes :=
  [105, 110, 118, 97, 108, 105, 100, 32, 97, 114, 103, 117, 109, 101, 110, 116, 32,
   108, 101, 110, 103, 116, 104, 58, 32]

/-- Largest `uint64`. -/
def maxUint64 : Nat := 2 ^ 64 - 1

/-- Largest `int` on a 64-bit platform. -/
def maxInt : Nat := 2 ^ 63 - 1

/-- The ceiling `maxAlloc` of the Go allocator on a 64-bit platform, in bytes.
The runtime's `makeslice` panics when the memory of the slice, element size
times number of elements, is larger (a number of elements outside the `int`
range is larger in every case). -/
def maxAlloc : Nat := 2 ^ 48

/-! ## Errors and results -/

/-- The `error` values `readCommand` can return. -/
inductive Error where
  /-- The value `io.EOF`. -/
  | EOF
  /-- The value `io.ErrUnexpectedEOF`. -/
  | ErrUnexpectedEOF
  /-- A value of the type `protocolError` (main.go:134), with its message. -/
  | protocolError (msg : Bytes)
  deriving DecidableEq, Repr

/-- The run-time panics the code can raise. -/
inductive Panic where
  /-- Raised by `make([]byte, n)`: len out of range. -/
  | makesliceLen
  /-- Raised by `make([]string, 0, n)`: cap out of range. -/
  | makesliceCap
  /-- Raised by a slice expression `a[lo:hi]` out of range. -/
  | sliceBounds
  /-- Raised by an index expression `a[i]` out of range. -/
  | indexOutOfRange
  deriving DecidableEq, Repr

/-- Outcome of a read operation on the connection: a value and the input left
unread, a Go error and the input left unread, or a panic. -/
inductive Result (α : Type) where
  | ok (val : α) (rest : Bytes)
  | err (e : Error) (rest : Bytes)
  | panic (p : Panic)
  deriving DecidableEq, Repr

/-- The struct `command` (main.go:205). -/
structure command where
  Name : Bytes
  Args : List Bytes
  deriving DecidableEq, Repr

/-! ## Library functions used by the source -/

/-- The loop of `strconv.ParseUint(s, 10, 64)`: `n` is the value so far.  A byte
that is not a decimal digit is a syntax error, a value above `maxUint64` a range
error; both are `none` (the source only tests `err != nil`). -/
def parseUintLoop : Bytes → Nat → Option Nat
  | [], n => some n
  | c :: cs, n =>
    if 48 ≤ c ∧ c ≤ 57 then
      if n ≥ maxUint64 / 10 + 1 then none
      else if n * 10 + (c - 48) > maxUint64 then none
      else parseUintLoop cs (n * 10 + (c - 48))
    else none

/-- The call `strconv.ParseUint(s, 10, 64)`: the empty string is a syntax
error. -/
def ParseUint (s : Bytes) : Option Nat :=
  match s with
  | [] => none
  | _ :: _ => parseUintLoop s 0

/-- Decimal digits of `u`, most significant first, in front of `acc`; `fuel`
bounds the number of digits. -/
def itoaAux : Nat → Nat → Bytes → Bytes
  | 0, _, acc => acc
  | fuel + 1, u, acc =>
    if u < 10 then (48 + u) :: acc
    else itoaAux fuel (u / 10) ((48 + u % 10) :: acc)

/-- The verb `%d` of `fmt` on a non-negative integer. -/
def itoa (u : Nat) : Bytes := itoaAux (u + 1) u []

/-- Size of the buffer of `bufio.NewReader` (`defaultBufSize`). -/
def bufSize : Nat := 4096

/-- Drops one final "\r", as `bufio.Reader.ReadLine` does in front of "\n". -/
def dropCR (l : Bytes) : Bytes :=
  if l.getLast? = some 13 then l.dropLast else l

/-- The function `io.ReadFull(client.reader, buf)` with `len(buf) = n`: exactly
`n` bytes, or `io.EOF` when no byte could be read, or `io.ErrUnexpectedEOF`
when the stream ended after fewer than `n` bytes. -/
def ReadFull (input : Bytes) (n : Nat) : Result Bytes :=
  if n ≤ input.length then .ok (input.take n) (input.drop n)
  else if input = [] then .err .EOF []
  else .err .ErrUnexpectedEOF []

/-- Conversion `int(u)` of a `uint64` on a 64-bit platform. -/
def intOfUint64 (u : Nat) : Int :=
  if u % 2 ^ 64 < 2 ^ 63 then ((u % 2 ^ 64 : Nat) : Int)
  else ((u % 2 ^ 64 : Nat) : Int) - 2 ^ 64

/-! ## The store (main.go:44-61) -/

/-- The struct `store`: the map `data`; a key without an entry is `none`.  The
lock does not appear: one connection is followed. -/
structure store where
  data : Bytes → Option Bytes

/-- The store `make(map[string]string)` of `main`. -/
def store.empty : store := ⟨fun _ => none⟩

/-- The method `store.Get`: `store.data[key]`, the empty string for a key
without an entry. -/
def store.Get (s : store) (key : Bytes) : Bytes :=
  (s.data key).getD []

/-- The method `store.Set`: `store.data[key] = val`. -/
def store.Set (s : store) (key : Bytes) (val : Bytes) : store :=
  ⟨fun k => if k = key then some val else s.data k⟩

/-! ## The codec (main.go:119-203) -/

/-- The loop of `client.readLine` over the fragments of
`bufio.Reader.ReadLine`, followed byte by byte: `line` is what has been read of
the line and `n` the number of its bytes held in the reader's buffer.
* "\n" ends the line; it is dropped together with one "\r" in front of it.
* A buffer filled by `bufSize` bytes without "\n" is handed over as a fragment
  (`isPrefix`) and the loop goes on with an empty buffer; a "\r" in the last
  place of the buffer is put back and stays in the buffer.
* At the end of the stream a non-empty buffer is the last fragment of the line;
  an empty buffer makes `ReadLine` return `io.EOF`, which `readLine` returns
  with the empty string, also when fragments were read before. -/
def readLineScan : Bytes → Nat → Bytes → Result Bytes
  | [], n, line => if n = 0 then .err .EOF [] else .ok line []
  | b :: bs, n, line =>
    if b = 10 then .ok (dropCR line) bs
    else if n + 1 < bufSize then readLineScan bs (n + 1) (line ++ [b])
    else readLineScan bs (if b = 13 then 1 else 0) (line ++ [b])

/-- The method `client.readLine` (main.go:188-203) on the unread input. -/
def readLine (input : Bytes) : Result Bytes :=
  readLineScan input 0 []

/-- The argument loop of `readCommand` (main.go:159-182) with `i` iterations
left and `args` collected so far.  The buffer `make([]byte, argLen+2)` has
`(argLen + 2) mod 2^64` elements of one byte. -/
def readArgs : Nat → Bytes → List Bytes → Result (List Bytes)
  | 0, input, args => .ok args input
  | i + 1, input, args =>
    match readLine input with
    | .err e rest => .err e rest
    | .panic p => .panic p
    | .ok line rest =>
      match line with
      | 36 :: argLenStr =>
        match ParseUint argLenStr with
        | none => .err (.protocolError (msgInvalidLength ++ argLenStr)) rest
        | some argLen =>
          if (argLen + 2) % 2 ^ 64 > maxAlloc then .panic .makesliceLen
          else
            match ReadFull rest ((argLen + 2) % 2 ^ 64) with
            | .err e rest2 => .err e rest2
            | .panic p => .panic p
            | .ok arg rest2 =>
              if arg.length < 2 then .panic .sliceBounds
              else readArgs i rest2 (args ++ [arg.take (arg.length - 2)])
      | _ => .err (.protocolError (msgUnknownCommand ++ line)) rest

/-- The method `client.readCommand` (main.go:140-186).  The slice
`make([]string, 0, argc)` has room for `argc` string headers of 16 bytes. -/
def readCommand (input : Bytes) : Result command :=
  match readLine input with
  | .err e rest => .err e rest
  | .panic p => .panic p
  | .ok line rest =>
    match line with
    | 42 :: argcStr =>
      match ParseUint argcStr with
      | none => .err (.protocolError (msgInvalidCount ++ argcStr)) rest
      | some argc =>
        if argc ≤ 1 then .err (.protocolError (msgInvalidCount ++ argcStr)) rest
        else if 16 * argc > maxAlloc then .panic .makesliceCap
        else
          match readArgs (intOfUint64 argc).toNat rest [] with
          | .err e rest2 => .err e rest2
          | .panic p => .panic p
          | .ok [] _ => .panic .indexOutOfRange
          | .ok (name :: args) rest2 => .ok ⟨name, args⟩ rest2
    | _ => .ok ⟨line, []⟩ rest

/-- The bytes written by `client.send(val)`: "$%d\r\n%s\r\n". -/
def send (val : Bytes) : Bytes :=
  [36] ++ itoa val.length ++ CRLF ++ val ++ CRLF

/-- The bytes written by `client.sendError(err)` for an error with message
`msg`: "-ERR " + msg + "\r\n". -/
def sendError (msg : Bytes) : Bytes :=
  ERR ++ msg ++ CRLF

/-! ## The session (main.go:70-108) -/

/-- How `serve` returns. -/
inductive Exit where
  /-- `readCommand` returned `io.EOF` (main.go:80). -/
  | disconnected
  /-- `readCommand` returned a `protocolError`, reported to the peer
  (main.go:82). -/
  | protocolError
  /-- `readCommand` returned another error, logged only (main.go:84). -/
  | readError
  /-- GET or SET without arguments (main.go:93, main.go:100). -/
  | arityError
  /-- A run-time panic. -/
  | panic (p : Panic)
  deriving DecidableEq, Repr

/-- One pass through the `switch` of `serve`: the bytes written, and either the
store for the next iteration or the way `serve` returns. -/
inductive Step where
  | next (out : Bytes) (s : store)
  | stop (out : Bytes) (e : Exit)

/-- The `switch cmd.Name` of `serve` (main.go:89-106). -/
def dispatch (s : store) (cmd : command) : Step :=
  if cmd.Name = GET then
    match cmd.Args with
    | [] => .stop (sendError msgGetArity) .arityError
    | key :: _ => .next (send (s.Get key)) s
  else if cmd.Name = SET then
    match cmd.Args with
    | [] => .stop (sendError msgSetArity) .arityError
    | [_] => .stop [] (.panic .indexOutOfRange)
    | key :: val :: _ => .next OK (s.Set key val)
  else .next (sendError (msgServeDefault ++ cmd.Name)) s

/-- A finished session: everything written to the connection, the store it
leaves, and how `serve` returned. -/
structure Session where
  out : Bytes
  store : store
  exit : Exit

/-- Puts `out` in front of what the rest of the session writes. -/
def Session.after (out : Bytes) (r : Session) : Session :=
  ⟨out ++ r.out, r.store, r.exit⟩

/-- The `for` loop of `serve` (main.go:76-107), at most `fuel` iterations;
`none` when the iterations run out. -/
def serveLoop : Nat → store → Bytes → Option Session
  | 0, _, _ => none
  | fuel + 1, s, input =>
    match readCommand input with
    | .err .EOF _ => some ⟨[], s, .disconnected⟩
    | .err (.protocolError msg) _ => some ⟨sendError msg, s, .protocolError⟩
    | .err .ErrUnexpectedEOF _ => some ⟨[], s, .readError⟩
    | .panic p => some ⟨[], s, .panic p⟩
    | .ok cmd rest =>
      match dispatch s cmd with
      | .stop out e => some ⟨out, s, e⟩
      | .next out s2 => (serveLoop fuel s2 rest).map (Session.after out)

/-- The method `client.serve` on a connection whose input is `input` followed
by end-of-stream.  Every command takes at least one byte, so `input.length + 1`
iterations are enough (theorem `serve_total`). -/
def serve (s : store) (input : Bytes) : Option Session :=
  serveLoop (input.length + 1) s input

/-! ## Request encodings named by the claims -/

/-- One argument block of a multi-bulk request:
"$" + decimal length + "\r\n" + payload + "\r\n". -/
def bulk (a : Bytes) : Bytes :=
  [36] ++ itoa a.length ++ CRLF ++ a ++ CRLF

/-- The blocks of a list of arguments, one after another. -/
def bulks : List Bytes → Bytes
  | [] => []
  | a :: as => bulk a ++ bulks as

/-- The multi-bulk request for `args`: "*" + decimal count + "\r\n" and the
blocks. -/
def multiBulk (args : List Bytes) : Bytes :=
  [42] ++ itoa args.length ++ CRLF ++ bulks args

/-- One argument block whose two closing bytes are `t.1` and `t.2` in place of
"\r\n". -/
def bulkWith (a : Bytes) (t : Nat × Nat) : Bytes :=
  [36] ++ itoa a.length ++ CRLF ++ a ++ [t.1, t.2]

/-- The blocks of a list of arguments, each with its own two closing bytes. -/
def bulksWith : List (Bytes × (Nat × Nat)) → Bytes
  | [] => []
  | b :: bs => bulkWith b.1 b.2 ++ bulksWith bs

/-- The multi-bulk request for the arguments `blocks.map Prod.fst`, each block
closed by its own two bytes. -/
def multiBulkWith (blocks : List (Bytes × (Nat × Nat))) : Bytes :=
  [42] ++ itoa blocks.length ++ CRLF ++ bulksWith blocks

/-! ## Several sessions on one store -/

/-- The store after the calls `Set(k, v)`, one for each `v` of `order`, have run
one after another in that order.  `store.Set` holds the write lock from its
first to its last statement (main.go:57-58), so the calls of several sessions
take effect one at a time, in some order. -/
def setInOrder (s : store) (k : Bytes) (order : List Bytes) : store :=
  order.foldl (fun st v => st.Set k v) s

/-! ## Lines -/

theorem dropCR_append_cr (l : Bytes) : dropCR (l ++ [13]) = l := by
  simp [dropCR]

theorem dropCR_of_ne (l : Bytes) (h : l.getLast? ≠ some 13) : dropCR l = l := by
  simp [dropCR, h]

theorem readLineScan_lf (l rest : Bytes) (n : Nat) (line : Bytes) (h : 10 ∉ l) :
    readLineScan (l ++ 10 :: rest) n line = .ok (dropCR (line ++ l)) rest := by
  induction l generalizing n line with
  | nil => simp [readLineScan]
  | cons b bs ih =>
    have hb : b ≠ 10 := fun e => h (by simp [e])
    have hbs : 10 ∉ bs := fun e => h (by simp [e])
    have e : line ++ b :: bs = (line ++ [b]) ++ bs := by simp
    rw [List.cons_append, readLineScan, if_neg hb, e]
    split
    · exact ih _ _ hbs
    · exact ih _ _ hbs

theorem readLine_crlf (l rest : Bytes) (h : 10 ∉ l) :
    readLine (l ++ 13 :: 10 :: rest) = .ok l rest := by
  have h2 : 10 ∉ l ++ [13] := by simp [h]
  have e : l ++ 13 :: 10 :: rest = (l ++ [13]) ++ 10 :: rest := by simp
  rw [e, readLine, readLineScan_lf _ _ _ _ h2, List.nil_append, dropCR_append_cr]

theorem readLine_lf (l rest : Bytes) (h : 10 ∉ l) (hcr : l.getLast? ≠ some 13) :
    readLine (l ++ 10 :: rest) = .ok l rest := by
  rw [readLine, readLineScan_lf _ _ _ _ h, List.nil_append, dropCR_of_ne l hcr]

theorem readLineScan_ok_length (input : Bytes) (n : Nat) (acc line rest : Bytes)
    (h : readLineScan input n acc = .ok line rest) :
    rest.length ≤ input.length ∧ (input ≠ [] → rest.length < input.length) := by
  induction input generalizing n acc with
  | nil =>
    simp only [readLineScan] at h
    split at h
    · simp at h
    · simp only [Result.ok.injEq] at h
      simp [← h.2]
  | cons b bs ih =>
    simp only [readLineScan] at h
    split at h
    · simp only [Result.ok.injEq] at h
      simp [← h.2]
    · split at h
      · have := (ih _ _ h).1
        simp only [List.length_cons]
        exact ⟨by omega, fun _ => by omega⟩
      · have := (ih _ _ h).1
        simp only [List.length_cons]
        exact ⟨by omega, fun _ => by omega⟩

theorem readLine_ok_length (input line rest : Bytes)
    (h : readLine input = .ok line rest) : rest.length < input.length := by
  cases input with
  | nil => simp [readLine, readLineScan] at h
  | cons x xs => exact (readLineScan_ok_length _ _ _ _ _ h).2 (by simp)

theorem readLineScan_err_EOF (input : Bytes) (n : Nat) (acc : Bytes) (e : Error) (r : Bytes)
    (h : readLineScan input n acc = .err e r) : e = .EOF := by
  induction input generalizing n acc with
  | nil =>
    simp only [readLineScan] at h
    split at h
    · simp only [Result.err.injEq] at h
      exact h.1.symm
    · simp at h
  | cons b bs ih =>
    simp only [readLineScan] at h
    split at h
    · simp at h
    · split at h <;> exact ih _ _ h

theorem readLine_err_EOF (input : Bytes) (e : Error) (r : Bytes)
    (h : readLine input = .err e r) : e = .EOF :=
  readLineScan_err_EOF input 0 [] e r h

/-! ## Decimal numbers -/

theorem itoaAux_acc (fuel u : Nat) (acc : Bytes) :
    itoaAux fuel u acc = itoaAux fuel u [] ++ acc := by
  induction fuel generalizing u acc with
  | zero => simp [itoaAux]
  | succ n ih =>
    simp only [itoaAux]
    split
    · simp
    · rw [ih (u / 10) ((48 + u % 10) :: acc), ih (u / 10) [48 + u % 10]]
      simp

theorem itoaAux_digits (fuel u : Nat) :
    ∀ b ∈ itoaAux fuel u [], 48 ≤ b ∧ b ≤ 57 := by
  induction fuel generalizing u with
  | zero => simp [itoaAux]
  | succ n ih =>
    intro b hb
    simp only [itoaAux] at hb
    split at hb
    · simp at hb; omega
    · rw [itoaAux_acc] at hb
      simp at hb
      rcases hb with hb | hb
      · exact ih _ b hb
      · omega

theorem itoaAux_ne_nil (fuel u : Nat) : itoaAux (fuel + 1) u [] ≠ [] := by
  simp only [itoaAux]
  split
  · simp
  · rw [itoaAux_acc]; simp

theorem itoa_digits (u : Nat) : ∀ b ∈ itoa u, 48 ≤ b ∧ b ≤ 57 :=
  itoaAux_digits (u + 1) u

theorem itoa_ne_nil (u : Nat) : itoa u ≠ [] := itoaAux_ne_nil u u

theorem itoa_no_lf (u : Nat) : 10 ∉ itoa u := fun h => by
  have := itoa_digits u 10 h; omega

theorem parseUintLoop_append (xs ys : Bytes) (n : Nat) :
    parseUintLoop (xs ++ ys) n = (parseUintLoop xs n).bind (parseUintLoop ys) := by
  induction xs generalizing n with
  | nil => simp [parseUintLoop]
  | cons c cs ih =>
    simp only [List.cons_append, parseUintLoop]
    split
    · split
      · simp
      · split
        · simp
        · exact ih _
    · simp

theorem parseUintLoop_itoaAux (fuel u : Nat) (hf : u < fuel) (hu : u ≤ maxUint64) :
    parseUintLoop (itoaAux fuel u []) 0 = some u := by
  induction fuel generalizing u with
  | zero => omega
  | succ n ih =>
    simp only [itoaAux]
    split
    · rename_i h10
      simp only [parseUintLoop, maxUint64] at hu ⊢
      have h1 : 48 ≤ 48 + u ∧ 48 + u ≤ 57 := by omega
      simp [h1]
      omega
    · rename_i h10
      rw [itoaAux_acc, parseUintLoop_append, ih (u / 10) (by omega) (by omega)]
      simp only [Option.some_bind, parseUintLoop, maxUint64] at hu ⊢
      have h1 : 48 ≤ 48 + u % 10 ∧ 48 + u % 10 ≤ 57 := by omega
      have h2 : ¬ (u / 10 ≥ (2 ^ 64 - 1) / 10 + 1) := by omega
      have h3 : ¬ (u / 10 * 10 + (48 + u % 10 - 48) > 2 ^ 64 - 1) := by omega
      have h4 : u / 10 * 10 + (48 + u % 10 - 48) = u := by omega
      have h5 : ¬ (u > 2 ^ 64 - 1) := by omega
      simp only [h1, h2, h3, h4, h5, and_self, if_true, if_false]

theorem ParseUint_itoa (u : Nat) (hu : u ≤ maxUint64) : ParseUint (itoa u) = some u := by
  have hne := itoa_ne_nil u
  have hp := parseUintLoop_itoaAux (u + 1) u (by omega) hu
  unfold ParseUint
  cases h : itoa u with
  | nil => exact absurd h hne
  | cons x xs =>
    simp only
    rw [← h]
    exact hp

/-! ## Argument blocks -/

theorem ReadFull_ok (input : Bytes) (n : Nat) (h : n ≤ input.length) :
    ReadFull input n = .ok (input.take n) (input.drop n) := by
  simp [ReadFull, h]

theorem intOfUint64_toNat (u : Nat) (h : u ≤ maxInt) : (intOfUint64 u).toNat = u := by
  simp only [maxInt] at h
  have h1 : u % 2 ^ 64 = u := Nat.mod_eq_of_lt (by omega)
  have h2 : u < 2 ^ 63 := by omega
  unfold intOfUint64
  rw [h1, if_pos h2]
  exact Int.toNat_natCast u

theorem count_fits_int (n : Nat) (h : 16 * n ≤ maxAlloc) : n ≤ maxInt := by
  simp only [maxAlloc] at h
  simp only [maxInt]
  omega

/-- One iteration of the argument loop on a well-formed block header whose
buffer can be allocated and filled. -/
theorem readArgs_block (i : Nat) (input t rest : Bytes) (args : List Bytes) (argLen : Nat)
    (hline : readLine input = .ok (36 :: t) rest)
    (hparse : ParseUint t = some argLen)
    (hint : (argLen + 2) % 2 ^ 64 ≤ maxAlloc)
    (hsz : 2 ≤ (argLen + 2) % 2 ^ 64)
    (hfull : (argLen + 2) % 2 ^ 64 ≤ rest.length) :
    readArgs (i + 1) input args =
      readArgs i (rest.drop ((argLen + 2) % 2 ^ 64))
        (args ++ [rest.take ((argLen + 2) % 2 ^ 64 - 2)]) := by
  simp only [readArgs, hline, hparse]
  generalize (argLen + 2) % 2 ^ 64 = size at *
  have hlen : (List.take size rest).length = size := by
    rw [List.length_take]; omega
  have h1 : ¬ (size > maxAlloc) := by omega
  have h2 : ¬ (size < 2) := by omega
  have h3 : min (size - 2) size = size - 2 := by omega
  simp only [h1, if_false, ReadFull_ok rest _ hfull, h2, hlen, List.take_take, h3]

theorem readLine_header (c : Nat) (n : Nat) (rest : Bytes) (hc : c ≠ 10) :
    readLine (c :: itoa n ++ 13 :: 10 :: rest) = .ok (c :: itoa n) rest := by
  have h : 10 ∉ c :: itoa n := by
    simp only [List.mem_cons, not_or]
    exact ⟨fun e => hc e.symm, itoa_no_lf n⟩
  exact readLine_crlf (c :: itoa n) rest h

theorem bulk_append (a rest : Bytes) :
    bulk a ++ rest = 36 :: itoa a.length ++ 13 :: 10 :: (a ++ 13 :: 10 :: rest) := by
  simp [bulk, CRLF]

theorem readArgs_bulk (i : Nat) (a rest : Bytes) (args : List Bytes)
    (ha : a.length + 2 ≤ maxAlloc) :
    readArgs (i + 1) (bulk a ++ rest) args = readArgs i rest (args ++ [a]) := by
  have hm : (a.length + 2) % 2 ^ 64 = a.length + 2 := by
    simp only [maxAlloc] at ha
    exact Nat.mod_eq_of_lt (by omega)
  have hp : ParseUint (itoa a.length) = some a.length :=
    ParseUint_itoa _ (by simp only [maxAlloc, maxUint64] at ha ⊢; omega)
  rw [bulk_append]
  rw [readArgs_block i _ (itoa a.length) (a ++ 13 :: 10 :: rest) args a.length
    (readLine_header 36 _ _ (by decide)) hp (by rw [hm]; exact ha) (by rw [hm]; omega)
    (by rw [hm]; simp)]
  rw [hm]
  congr 1
  · have : a ++ 13 :: 10 :: rest = (a ++ [13, 10]) ++ rest := by simp
    rw [this, List.drop_append_eq_append_drop]
    simp
  · simp

theorem readArgs_bulks (as : List Bytes) (rest : Bytes) (args : List Bytes)
    (hlen : ∀ a ∈ as, a.length + 2 ≤ maxAlloc) :
    readArgs as.length (bulks as ++ rest) args = .ok (args ++ as) rest := by
  induction as generalizing args with
  | nil => simp [readArgs, bulks]
  | cons a as ih =>
    have ha : a.length + 2 ≤ maxAlloc := hlen a (by simp)
    have has : ∀ b ∈ as, b.length + 2 ≤ maxAlloc := fun b hb => hlen b (by simp [hb])
    simp only [bulks, List.length_cons, List.append_assoc]
    rw [readArgs_bulk _ _ _ _ ha, ih _ has]
    simp

/-- Decoding of a complete multi-bulk request whose buffers can be allocated. -/
theorem readCommand_multiBulk (name : Bytes) (as : List Bytes) (rest : Bytes)
    (hne : as ≠ [])
    (hcount : 16 * (as.length + 1) ≤ maxAlloc)
    (hlen : ∀ a ∈ name :: as, a.length + 2 ≤ maxAlloc) :
    readCommand (multiBulk (name :: as) ++ rest) = .ok ⟨name, as⟩ rest := by
  have hp : ParseUint (itoa (as.length + 1)) = some (as.length + 1) :=
    ParseUint_itoa _ (by simp only [maxAlloc, maxUint64] at hcount ⊢; omega)
  have h1 : ¬ (as.length + 1 ≤ 1) := by
    cases as with
    | nil => exact absurd rfl hne
    | cons _ _ => simp
  have h2 : ¬ (16 * (as.length + 1) > maxAlloc) := by omega
  have e : multiBulk (name :: as) ++ rest
      = 42 :: itoa (as.length + 1) ++ 13 :: 10 :: (bulks (name :: as) ++ rest) := by
    simp [multiBulk, CRLF]
  have hr := readArgs_bulks (name :: as) rest [] hlen
  simp only [List.length_cons, List.nil_append] at hr
  rw [e]
  simp only [readCommand, readLine_header 42 _ _ (by decide), hp, h1, h2, if_false,
    intOfUint64_toNat _ (count_fits_int _ hcount), hr]

/-! ## Progress of the decoder and the session loop -/

theorem ReadFull_ok_length (input : Bytes) (n : Nat) (arg rest : Bytes)
    (h : ReadFull input n = .ok arg rest) : rest.length ≤ input.length := by
  unfold ReadFull at h
  split at h
  · simp only [Result.ok.injEq] at h
    rw [← h.2]; simp
  · split at h <;> simp at h

theorem readArgs_ok_length (i : Nat) (input : Bytes) (args v : List Bytes) (rest : Bytes)
    (h : readArgs i input args = .ok v rest) : rest.length ≤ input.length := by
  induction i generalizing input args with
  | zero =>
    simp only [readArgs, Result.ok.injEq] at h
    rw [h.2]
  | succ i ih =>
    simp only [readArgs] at h
    split at h
    · simp at h
    · simp at h
    · rename_i line r1 hline
      have hl := readLine_ok_length _ _ _ hline
      split at h
      · split at h
        · simp at h
        · split at h
          · simp at h
          · split at h
            · simp at h
            · simp at h
            · rename_i arg r2 hfull
              have hf := ReadFull_ok_length _ _ _ _ hfull
              split at h
              · simp at h
              · have := ih _ _ h
                omega
      · simp at h

theorem readCommand_ok_length (input : Bytes) (cmd : command) (rest : Bytes)
    (h : readCommand input = .ok cmd rest) : rest.length < input.length := by
  simp only [readCommand] at h
  split at h
  · simp at h
  · simp at h
  · rename_i line r1 hline
    have hl := readLine_ok_length _ _ _ hline
    split at h
    · split at h
      · simp at h
      · split at h
        · simp at h
        · split at h
          · simp at h
          · split at h
            · simp at h
            · simp at h
            · simp at h
            · rename_i name args r2 hargs
              have := readArgs_ok_length _ _ _ _ _ hargs
              simp only [Result.ok.injEq] at h
              rw [← h.2]
              omega
    · simp only [Result.ok.injEq] at h
      rw [← h.2]
      exact hl

theorem serveLoop_fuel (fuel1 fuel2 : Nat) (s : store) (input : Bytes)
    (h1 : input.length < fuel1) (h2 : input.length < fuel2) :
    serveLoop fuel1 s input = serveLoop fuel2 s input := by
  induction fuel1 generalizing fuel2 s input with
  | zero => omega
  | succ n ih =>
    cases fuel2 with
    | zero => omega
    | succ m =>
      simp only [serveLoop]
      cases hc : readCommand input with
      | err e r => cases e <;> rfl
      | panic p => rfl
      | ok cmd rest =>
        have hl := readCommand_ok_length _ _ _ hc
        simp only
        cases dispatch s cmd with
        | stop out e => rfl
        | next out s2 =>
          simp only
          rw [ih m s2 rest (by omega) (by omega)]

/-- One iteration of `serve` on a decoded command. -/
theorem serve_ok (s : store) (input : Bytes) (cmd : command) (rest : Bytes)
    (h : readCommand input = .ok cmd rest) :
    serve s input =
      match dispatch s cmd with
      | .stop out e => some ⟨out, s, e⟩
      | .next out s2 => (serve s2 rest).map (Session.after out) := by
  have hl := readCommand_ok_length _ _ _ h
  unfold serve
  rw [serveLoop, h]
  simp only
  cases dispatch s cmd with
  | stop out e => rfl
  | next out s2 =>
    simp only
    rw [serveLoop_fuel input.length (rest.length + 1) s2 rest hl (by omega)]

/-- `serve` returns on every input: the iteration bound is never reached. -/
theorem serve_total (s : store) (input : Bytes) : ∃ r, serve s input = some r := by
  generalize hn : input.length = n
  induction n using Nat.strong_induction_on generalizing s input with
  | _ n ih =>
    cases hc : readCommand input with
    | err e r =>
      cases e <;> simp [serve, serveLoop, hc]
    | panic p => simp [serve, serveLoop, hc]
    | ok cmd rest =>
      have hl := readCommand_ok_length _ _ _ hc
      rw [serve_ok s input cmd rest hc]
      cases dispatch s cmd with
      | stop out e => exact ⟨_, rfl⟩
      | next out s2 =>
        obtain ⟨r, hr⟩ := ih rest.length (by omega) s2 rest rfl
        exact ⟨Session.after out r, by simp only [hr, Option.map_some']⟩

theorem serve_nil (s : store) : serve s [] = some ⟨[], s, .disconnected⟩ := rfl

/-! ## Helper lemmas for the claims -/

theorem store_Get_Set_same (s : store) (k v : Bytes) : (s.Set k v).Get k = v := by
  simp [store.Get, store.Set]

theorem store_Get_Set_other (s : store) (k v k2 : Bytes) (h : k2 ≠ k) :
    (s.Set k v).Get k2 = s.Get k2 := by
  simp [store.Get, store.Set, h]

theorem store_foldl_Get (ops : List (Bytes × Bytes)) (s0 : store) (k : Bytes) :
    (ops.foldl (fun s op => s.Set op.1 op.2) s0).Get k =
      match ops.reverse.find? (fun op => op.1 = k) with
      | some op => op.2
      | none => s0.Get k := by
  induction ops using List.reverseRecOn with
  | nil => simp
  | append_singleton l a ih =>
    simp only [List.foldl_append, List.foldl_cons, List.foldl_nil, List.reverse_append,
      List.reverse_cons, List.reverse_nil, List.nil_append, List.singleton_append,
      List.find?_cons]
    by_cases h : a.1 = k
    · simp only [h, decide_True]
      exact store_Get_Set_same _ _ _
    · have h2 : k ≠ a.1 := fun e => h e.symm
      simp only [h, decide_False]
      rw [store_Get_Set_other _ _ _ _ h2]
      exact ih

/-- An argument block whose declared length needs a buffer above the
allocator's ceiling makes `make` panic. -/
theorem readArgs_makeslice (i : Nat) (input t rest : Bytes) (args : List Bytes) (argLen : Nat)
    (hline : readLine input = .ok (36 :: t) rest)
    (hparse : ParseUint t = some argLen)
    (hbig : maxAlloc < (argLen + 2) % 2 ^ 64) :
    readArgs (i + 1) input args = .panic .makesliceLen := by
  simp only [readArgs, hline, hparse]
  generalize (argLen + 2) % 2 ^ 64 = size at *
  simp only [gt_iff_lt, hbig, if_true]

theorem readArgs_bulk_makeslice (i : Nat) (a rest : Bytes) (args : List Bytes)
    (h1 : maxAlloc < a.length + 2) (h2 : a.length + 2 < 2 ^ 64) :
    readArgs (i + 1) (bulk a ++ rest) args = .panic .makesliceLen := by
  have hp : ParseUint (itoa a.length) = some a.length :=
    ParseUint_itoa _ (by simp only [maxUint64]; omega)
  rw [bulk_append]
  exact readArgs_makeslice i _ (itoa a.length) _ args a.length
    (readLine_header 36 _ _ (by decide)) hp (by rw [Nat.mod_eq_of_lt h2]; exact h1)

/-- A count whose string headers need more than the allocator's ceiling makes
`make` panic. -/
theorem readCommand_makeslice (as : List Bytes) (rest : Bytes)
    (h1 : maxAlloc < 16 * as.length) (h2 : as.length < 2 ^ 64) :
    readCommand (multiBulk as ++ rest) = .panic .makesliceCap := by
  have hp : ParseUint (itoa as.length) = some as.length :=
    ParseUint_itoa _ (by simp only [maxUint64]; omega)
  have e : multiBulk as ++ rest = 42 :: itoa as.length ++ 13 :: 10 :: (bulks as ++ rest) := by
    simp [multiBulk, CRLF]
  have h3 : ¬ (as.length ≤ 1) := by simp only [maxAlloc] at h1; omega
  rw [e]
  simp only [readCommand, readLine_header 42 _ _ (by decide), hp, h3, if_false, gt_iff_lt, h1,
    if_true]

/-- A three-block request whose last payload is too long for a buffer. -/
theorem readCommand_third_makeslice (a0 a1 a2 rest : Bytes)
    (h0 : a0.length + 2 ≤ maxAlloc) (h1 : a1.length + 2 ≤ maxAlloc)
    (h2 : maxAlloc < a2.length + 2) (h3 : a2.length + 2 < 2 ^ 64) :
    readCommand (multiBulk [a0, a1, a2] ++ rest) = .panic .makesliceLen := by
  have e : multiBulk [a0, a1, a2] ++ rest
      = 42 :: itoa 3 ++ 13 :: 10 :: (bulk a0 ++ (bulk a1 ++ (bulk a2 ++ rest))) := by
    simp [multiBulk, bulks, CRLF]
  have hp : ParseUint (itoa 3) = some 3 := by decide
  have hi : (intOfUint64 3).toNat = 2 + 1 := by decide
  rw [e]
  simp only [readCommand, readLine_header 42 _ _ (by decide), hp, hi]
  rw [readArgs_bulk _ _ _ _ h0, readArgs_bulk _ _ _ _ h1, readArgs_bulk_makeslice _ _ _ _ h2 h3]
  rfl

/-- A two-block request whose last payload is too long for a buffer. -/
theorem readCommand_second_makeslice (a0 a1 rest : Bytes)
    (h0 : a0.length + 2 ≤ maxAlloc)
    (h2 : maxAlloc < a1.length + 2) (h3 : a1.length + 2 < 2 ^ 64) :
    readCommand (multiBulk [a0, a1] ++ rest) = .panic .makesliceLen := by
  have e : multiBulk [a0, a1] ++ rest
      = 42 :: itoa 2 ++ 13 :: 10 :: (bulk a0 ++ (bulk a1 ++ rest)) := by
    simp [multiBulk, bulks, CRLF]
  have hp : ParseUint (itoa 2) = some 2 := by decide
  have hi : (intOfUint64 2).toNat = 1 + 1 := by decide
  rw [e]
  simp only [readCommand, readLine_header 42 _ _ (by decide), hp, hi]
  rw [readArgs_bulk _ _ _ _ h0, readArgs_bulk_makeslice _ _ _ _ h2 h3]
  rfl

/-- A three-block request whose second payload is too long for a buffer. -/
theorem readCommand_middle_makeslice (a0 a1 a2 rest : Bytes)
    (h0 : a0.length + 2 ≤ maxAlloc)
    (h1 : maxAlloc < a1.length + 2) (h2 : a1.length + 2 < 2 ^ 64) :
    readCommand (multiBulk [a0, a1, a2] ++ rest) = .panic .makesliceLen := by
  have e : multiBulk [a0, a1, a2] ++ rest
      = 42 :: itoa 3 ++ 13 :: 10 :: (bulk a0 ++ (bulk a1 ++ (bulk a2 ++ rest))) := by
    simp [multiBulk, bulks, CRLF]
  have hp : ParseUint (itoa 3) = some 3 := by decide
  have hi : (intOfUint64 3).toNat = 2 + 1 := by decide
  rw [e]
  simp only [readCommand, readLine_header 42 _ _ (by decide), hp, hi]
  rw [readArgs_bulk _ _ _ _ h0, readArgs_bulk_makeslice _ _ _ _ h1 h2]
  rfl

theorem serve_panic (s : store) (input : Bytes) (p : Panic)
    (h : readCommand input = .panic p) : serve s input = some ⟨[], s, .panic p⟩ := by
  unfold serve
  rw [serveLoop, h]

/-! ## Origin of protocol errors -/

theorem ReadFull_err (input : Bytes) (n : Nat) (e : Error) (r : Bytes)
    (h : ReadFull input n = .err e r) : e = .EOF ∨ e = .ErrUnexpectedEOF := by
  unfold ReadFull at h
  split at h
  · simp at h
  · split at h
    · simp only [Result.err.injEq] at h
      exact Or.inl h.1.symm
    · simp only [Result.err.injEq] at h
      exact Or.inr h.1.symm

/-- A protocol error raised inside the argument loop carries one of the two
messages of main.go:167 and main.go:173. -/
theorem readArgs_protocol_msg (i : Nat) (input : Bytes) (args : List Bytes) (m r : Bytes)
    (h : readArgs i input args = .err (.protocolError m) r) :
    (∃ l, m = msgUnknownCommand ++ l) ∨ (∃ l, m = msgInvalidLength ++ l) := by
  induction i generalizing input args with
  | zero => simp [readArgs] at h
  | succ i ih =>
    simp only [readArgs] at h
    split at h
    · rename_i e r1 hline
      have := readLine_err_EOF _ _ _ hline
      simp only [Result.err.injEq] at h
      rw [this] at h
      simp at h
    · simp at h
    · split at h
      · split at h
        · simp only [Result.err.injEq, Error.protocolError.injEq] at h
          exact Or.inr ⟨_, h.1.symm⟩
        · split at h
          · simp at h
          · split at h
            · rename_i e r2 hfull
              simp only [Result.err.injEq] at h
              rcases ReadFull_err _ _ _ _ hfull with he | he <;> rw [he] at h <;> simp at h
            · simp at h
            · split at h
              · simp at h
              · exact ih _ _ h
      · simp only [Result.err.injEq, Error.protocolError.injEq] at h
        exact Or.inl ⟨_, h.1.symm⟩

theorem msgInvalidCount_ne_unknown (t l : Bytes) :
    msgInvalidCount ++ t ≠ msgUnknownCommand ++ l := by
  simp [msgInvalidCount, msgUnknownCommand]

theorem msgInvalidCount_ne_length (t l : Bytes) :
    msgInvalidCount ++ t ≠ msgInvalidLength ++ l := by
  simp [msgInvalidCount, msgInvalidLength]

/-- The argument loop run for `k + j` iterations is the loop run for `k`
iterations followed by the loop run for `j` iterations. -/
theorem readArgs_add (k j : Nat) (input : Bytes) (args : List Bytes) :
    readArgs (k + j) input args =
      match readArgs k input args with
      | .ok acc r => readArgs j r acc
      | .err e r => .err e r
      | .panic p => .panic p := by
  induction k generalizing input args with
  | zero => simp [readArgs]
  | succ k ih =>
    rw [Nat.succ_add]
    simp only [readArgs]
    cases readLine input with
    | err e r => rfl
    | panic p => rfl
    | ok line rest =>
      simp only
      split
      · cases ParseUint _ with
        | none => rfl
        | some argLen =>
          simp only
          split
          · rfl
          · cases ReadFull rest ((argLen + 2) % 2 ^ 64) with
            | err e r => rfl
            | panic p => rfl
            | ok arg rest2 =>
              simp only
              split
              · rfl
              · exact ih _ _
      · rfl

/-- What `readCommand` does once the count line is accepted and the buffer for
the arguments is allocated. -/
theorem readCommand_count_ok (input t rest : Bytes) (argc : Nat)
    (hline : readLine input = .ok (42 :: t) rest)
    (hparse : ParseUint t = some argc) (h2 : 2 ≤ argc) (hmax : 16 * argc ≤ maxAlloc) :
    readCommand input =
      match readArgs argc rest [] with
      | .err e rest2 => .err e rest2
      | .panic p => .panic p
      | .ok [] _ => .panic .indexOutOfRange
      | .ok (name :: args) rest2 => .ok ⟨name, args⟩ rest2 := by
  have h1 : ¬ (argc ≤ 1) := by omega
  have h3 : ¬ (16 * argc > maxAlloc) := by omega
  simp only [readCommand, hline, hparse, h1, h3, if_false,
    intOfUint64_toNat _ (count_fits_int _ hmax)]

/-! ## Inline commands, end of stream, wrapped lengths, closing bytes -/

theorem serve_stop (s : store) (input : Bytes) (cmd : command) (rest out : Bytes) (e : Exit)
    (h : readCommand input = .ok cmd rest) (hd : dispatch s cmd = .stop out e) :
    serve s input = some ⟨out, s, e⟩ := by
  rw [serve_ok s input cmd rest h, hd]

theorem readCommand_inline (input line rest : Bytes)
    (hline : readLine input = .ok line rest) (hstar : line.head? ≠ some 42) :
    readCommand input = .ok ⟨line, []⟩ rest := by
  cases line with
  | nil => simp only [readCommand, hline]
  | cons b bs =>
    have hb : b ≠ 42 := fun e => hstar (by simp [e])
    simp only [readCommand, hline]
    split
    · rename_i heq
      simp at heq
      exact absurd heq.1 hb
    · rfl

/-- What `readCommand` does once the count line is accepted and `k` blocks have
been read: the loop goes on for the remaining iterations. -/
theorem readCommand_after_blocks (input t r0 : Bytes) (argc k j : Nat) (acc : List Bytes)
    (r1 : Bytes)
    (hcount : readLine input = .ok (42 :: t) r0)
    (hparse : ParseUint t = some argc) (h2 : 2 ≤ argc) (hmax : 16 * argc ≤ maxAlloc)
    (hsplit : argc = k + j)
    (hprev : readArgs k r0 [] = .ok acc r1) :
    readCommand input =
      match readArgs j r1 acc with
      | .err e rest2 => .err e rest2
      | .panic p => .panic p
      | .ok [] _ => .panic .indexOutOfRange
      | .ok (name :: args) rest2 => .ok ⟨name, args⟩ rest2 := by
  rw [readCommand_count_ok input t r0 argc hcount hparse h2 hmax, hsplit,
    readArgs_add k j r0 [], hprev]

theorem readLine_nil : readLine [] = .err .EOF [] := rfl

/-- The stream ends where a length line is expected. -/
theorem readArgs_eof_header (j : Nat) (acc : List Bytes) :
    readArgs (j + 1) [] acc = .err .EOF [] := by
  simp only [readArgs, readLine_nil]

/-- The stream ends directly behind a length line that asks for at least one
byte. -/
theorem readArgs_eof_payload (j : Nat) (r1 u : Bytes) (acc : List Bytes) (argLen : Nat)
    (hline : readLine r1 = .ok (36 :: u) [])
    (hparse : ParseUint u = some argLen)
    (hint : (argLen + 2) % 2 ^ 64 ≤ maxAlloc)
    (hpos : 0 < (argLen + 2) % 2 ^ 64) :
    readArgs (j + 1) r1 acc = .err .EOF [] := by
  simp only [readArgs, hline, hparse]
  generalize (argLen + 2) % 2 ^ 64 = size at *
  have h1 : ¬ (size > maxAlloc) := by omega
  have h2 : ¬ (size ≤ 0) := by omega
  simp [h1, ReadFull, h2]

/-- The stream ends inside the payload or the two closing bytes of a block,
after at least one of these bytes. -/
theorem readArgs_unexpected (j : Nat) (r1 u r2 : Bytes) (acc : List Bytes) (argLen : Nat)
    (hline : readLine r1 = .ok (36 :: u) r2)
    (hparse : ParseUint u = some argLen)
    (hint : (argLen + 2) % 2 ^ 64 ≤ maxAlloc)
    (hne : r2 ≠ [])
    (hshort : r2.length < (argLen + 2) % 2 ^ 64) :
    readArgs (j + 1) r1 acc = .err .ErrUnexpectedEOF [] := by
  simp only [readArgs, hline, hparse]
  generalize (argLen + 2) % 2 ^ 64 = size at *
  have h1 : ¬ (size > maxAlloc) := by omega
  have h2 : ¬ (size ≤ r2.length) := by omega
  simp [h1, ReadFull, h2, hne]

theorem serve_err_EOF (s : store) (input r : Bytes)
    (h : readCommand input = .err .EOF r) : serve s input = some ⟨[], s, .disconnected⟩ := by
  unfold serve
  rw [serveLoop, h]

theorem serve_err_unexpected (s : store) (input r : Bytes)
    (h : readCommand input = .err .ErrUnexpectedEOF r) :
    serve s input = some ⟨[], s, .readError⟩ := by
  unfold serve
  rw [serveLoop, h]

/-- A declared length whose `argLen + 2` wraps around to 0 or 1: the buffer is
read and the slice expression `arg[0:len(arg)-2]` panics. -/
theorem readArgs_slice_panic (i : Nat) (input t rest : Bytes) (args : List Bytes) (argLen : Nat)
    (hline : readLine input = .ok (36 :: t) rest)
    (hparse : ParseUint t = some argLen)
    (hsmall : (argLen + 2) % 2 ^ 64 < 2)
    (hfull : (argLen + 2) % 2 ^ 64 ≤ rest.length) :
    readArgs (i + 1) input args = .panic .sliceBounds := by
  simp only [readArgs, hline, hparse]
  generalize (argLen + 2) % 2 ^ 64 = size at *
  have h1 : ¬ (size > maxAlloc) := by simp only [maxAlloc]; omega
  have hlen : (List.take size rest).length = size := by
    rw [List.length_take]; omega
  simp only [h1, if_false, ReadFull_ok rest _ hfull, hlen, hsmall, if_true]

/-- A request "*2\r\n" whose first block declares a length that wraps around. -/
theorem readCommand_first_slice_panic (digits stream : Bytes) (argLen : Nat)
    (hd : 10 ∉ 36 :: digits)
    (hparse : ParseUint digits = some argLen)
    (hsmall : (argLen + 2) % 2 ^ 64 < 2)
    (hfull : (argLen + 2) % 2 ^ 64 ≤ stream.length) :
    readCommand ([42, 50] ++ 13 :: 10 :: ((36 :: digits) ++ 13 :: 10 :: stream))
      = .panic .sliceBounds := by
  have hc := readCommand_count_ok ([42, 50] ++ 13 :: 10 :: ((36 :: digits) ++ 13 :: 10 :: stream))
    [50] ((36 :: digits) ++ 13 :: 10 :: stream) 2 (readLine_crlf [42, 50] _ (by decide))
    (by decide) (by decide) (by decide)
  rw [hc, readArgs_slice_panic 1 _ digits stream [] argLen (readLine_crlf _ _ hd) hparse hsmall
    hfull]

/-- A request "*2\r\n" whose first block declares a length beyond the buffers
`make` can give. -/
theorem readCommand_first_makeslice (digits stream : Bytes) (argLen : Nat)
    (hd : 10 ∉ 36 :: digits)
    (hparse : ParseUint digits = some argLen)
    (hbig : maxAlloc < (argLen + 2) % 2 ^ 64) :
    readCommand ([42, 50] ++ 13 :: 10 :: ((36 :: digits) ++ 13 :: 10 :: stream))
      = .panic .makesliceLen := by
  have hc := readCommand_count_ok ([42, 50] ++ 13 :: 10 :: ((36 :: digits) ++ 13 :: 10 :: stream))
    [50] ((36 :: digits) ++ 13 :: 10 :: stream) 2 (readLine_crlf [42, 50] _ (by decide))
    (by decide) (by decide) (by decide)
  rw [hc, readArgs_makeslice 1 _ digits stream [] argLen (readLine_crlf _ _ hd) hparse hbig]

theorem setInOrder_concat (s : store) (k : Bytes) (l : List Bytes) (v : Bytes) :
    setInOrder s k (l ++ [v]) = (setInOrder s k l).Set k v := by
  simp [setInOrder]

theorem bulkWith_append (a : Bytes) (t : Nat × Nat) (rest : Bytes) :
    bulkWith a t ++ rest = 36 :: itoa a.length ++ 13 :: 10 :: (a ++ t.1 :: t.2 :: rest) := by
  simp [bulkWith, CRLF]

theorem readArgs_bulkWith (i : Nat) (a : Bytes) (t : Nat × Nat) (rest : Bytes)
    (args : List Bytes) (ha : a.length + 2 ≤ maxAlloc) :
    readArgs (i + 1) (bulkWith a t ++ rest) args = readArgs i rest (args ++ [a]) := by
  have hm : (a.length + 2) % 2 ^ 64 = a.length + 2 := by
    simp only [maxAlloc] at ha
    exact Nat.mod_eq_of_lt (by omega)
  have hp : ParseUint (itoa a.length) = some a.length :=
    ParseUint_itoa _ (by simp only [maxAlloc, maxUint64] at ha ⊢; omega)
  rw [bulkWith_append]
  rw [readArgs_block i _ (itoa a.length) (a ++ t.1 :: t.2 :: rest) args a.length
    (readLine_header 36 _ _ (by decide)) hp (by rw [hm]; exact ha) (by rw [hm]; omega)
    (by rw [hm]; simp)]
  rw [hm]
  congr 1
  · have : a ++ t.1 :: t.2 :: rest = (a ++ [t.1, t.2]) ++ rest := by simp
    rw [this, List.drop_append_eq_append_drop]
    simp
  · simp

theorem readArgs_bulksWith (bs : List (Bytes × (Nat × Nat))) (rest : Bytes) (args : List Bytes)
    (hlen : ∀ b ∈ bs, b.1.length + 2 ≤ maxAlloc) :
    readArgs bs.length (bulksWith bs ++ rest) args = .ok (args ++ bs.map Prod.fst) rest := by
  induction bs generalizing args with
  | nil => simp [readArgs, bulksWith]
  | cons b bs ih =>
    have hb : b.1.length + 2 ≤ maxAlloc := hlen b (by simp)
    have hbs : ∀ c ∈ bs, c.1.length + 2 ≤ maxAlloc := fun c hc => hlen c (by simp [hc])
    simp only [bulksWith, List.length_cons, List.append_assoc]
    rw [readArgs_bulkWith _ _ _ _ _ hb, ih _ hbs]
    simp

theorem readCommand_multiBulkWith (b0 : Bytes × (Nat × Nat)) (bs : List (Bytes × (Nat × Nat)))
    (rest : Bytes) (hne : bs ≠ [])
    (hcount : 16 * (bs.length + 1) ≤ maxAlloc)
    (hlen : ∀ b ∈ b0 :: bs, b.1.length + 2 ≤ maxAlloc) :
    readCommand (multiBulkWith (b0 :: bs) ++ rest) = .ok ⟨b0.1, bs.map Prod.fst⟩ rest := by
  have hp : ParseUint (itoa (bs.length + 1)) = some (bs.length + 1) :=
    ParseUint_itoa _ (by simp only [maxAlloc, maxUint64] at hcount ⊢; omega)
  have h1 : 2 ≤ bs.length + 1 := by
    cases bs with
    | nil => exact absurd rfl hne
    | cons _ _ => simp
  have e : multiBulkWith (b0 :: bs) ++ rest
      = 42 :: itoa (bs.length + 1) ++ 13 :: 10 :: (bulksWith (b0 :: bs) ++ rest) := by
    simp [multiBulkWith, CRLF]
  have hr := readArgs_bulksWith (b0 :: bs) rest [] hlen
  simp only [List.length_cons, List.nil_append, List.map_cons] at hr
  rw [e, readCommand_count_ok _ (itoa (bs.length + 1)) _ (bs.length + 1)
    (readLine_header 42 _ _ (by decide)) hp h1 hcount, hr]

theorem bulksWith_length (bs : List (Bytes × (Nat × Nat))) :
    (bulksWith bs).length = (bulks (bs.map Prod.fst)).length := by
  induction bs with
  | nil => rfl
  | cons b bs ih =>
    simp only [bulksWith, bulks, List.map_cons, List.length_append, ih, bulkWith, bulk, CRLF,
      List.length_cons, List.length_nil]

/-- The dispatch of a command without arguments writes an Error reply and keeps
the store. -/
theorem dispatch_no_args (s : store) (name : Bytes) :
    ∃ m, dispatch s ⟨name, []⟩ = .stop (ERR ++ m ++ CRLF) .arityError ∨
      dispatch s ⟨name, []⟩ = .next (ERR ++ m ++ CRLF) s := by
  by_cases hg : name = GET
  · exact ⟨msgGetArity, Or.inl (by simp [dispatch, hg, sendError])⟩
  · by_cases hs : name = SET
    · exact ⟨msgSetArity, Or.inl (by simp [dispatch, hs, sendError, SET, GET])⟩
    · exact ⟨msgServeDefault ++ name, Or.inr (by simp [dispatch, hg, hs, sendError])⟩

/-- A loop that completes has appended one string in each iteration. -/
theorem readArgs_ok_count (i : Nat) (input : Bytes) (args v : List Bytes) (rest : Bytes)
    (h : readArgs i input args = .ok v rest) : v.length = args.length + i := by
  induction i generalizing input args with
  | zero =>
    simp only [readArgs, Result.ok.injEq] at h
    rw [← h.1]; rfl
  | succ i ih =>
    simp only [readArgs] at h
    split at h
    · simp at h
    · simp at h
    · split at h
      · split at h
        · simp at h
        · split at h
          · simp at h
          · split at h
            · simp at h
            · simp at h
            · split at h
              · simp at h
              · have := ih _ _ h
                simp only [List.length_append, List.length_cons, List.length_nil] at this
                omega
      · simp at h

theorem readLine_no_panic (input : Bytes) (p : Panic) : readLine input ≠ .panic p := by
  unfold readLine
  generalize (0 : Nat) = n
  generalize ([] : Bytes) = acc
  induction input generalizing n acc with
  | nil =>
    simp only [readLineScan]
    split <;> simp
  | cons b bs ih =>
    simp only [readLineScan]
    split
    · simp
    · split
      · exact ih _ _
      · exact ih _ _

theorem ReadFull_no_panic (input : Bytes) (n : Nat) (p : Panic) : ReadFull input n ≠ .panic p := by
  unfold ReadFull
  split
  · simp
  · split <;> simp

/-- The argument loop panics only in `make([]byte, argLen+2)` and in the slice
expression `arg[0:len(arg)-2]`. -/
theorem readArgs_panic_kind (i : Nat) (input : Bytes) (args : List Bytes) (p : Panic)
    (h : readArgs i input args = .panic p) : p = .makesliceLen ∨ p = .sliceBounds := by
  induction i generalizing input args with
  | zero => simp [readArgs] at h
  | succ i ih =>
    simp only [readArgs] at h
    split at h
    · simp at h
    · rename_i q hq
      exact absurd hq (readLine_no_panic _ _)
    · split at h
      · split at h
        · simp at h
        · split at h
          · simp only [Result.panic.injEq] at h
            exact Or.inl h.symm
          · split at h
            · simp at h
            · rename_i q hq
              exact absurd hq (ReadFull_no_panic _ _ _)
            · split at h
              · simp only [Result.panic.injEq] at h
                exact Or.inr h.symm
              · exact ih _ _ h
      · simp at h

/-- The index expressions `args[0]` and `args[1:]` of main.go:184 are always in
range: a completed loop has appended `argc >= 2` strings. -/
theorem readCommand_index_in_range (input : Bytes) :
    readCommand input ≠ .panic .indexOutOfRange := by
  intro h
  simp only [readCommand] at h
  split at h
  · simp at h
  · rename_i q hq
    exact absurd hq (readLine_no_panic _ _)
  · split at h
    · split at h
      · simp at h
      · rename_i argc hp
        split at h
        · simp at h
        · split at h
          · simp at h
          · rename_i h1 h2
            have hmax : 16 * argc ≤ maxAlloc := by omega
            rw [intOfUint64_toNat _ (count_fits_int _ hmax)] at h
            split at h
            · simp at h
            · rename_i q r hq
              simp only [Result.panic.injEq] at h
              rw [h] at hq
              rcases readArgs_panic_kind _ _ _ _ hq with hk | hk <;> simp at hk
            · rename_i r hq
              have := readArgs_ok_count _ _ _ _ _ hq
              simp only [List.length_nil] at this
              omega
            · simp at h
    · simp at h

/-! ## Requests that decode are within the allocator's ceiling -/

theorem parseUintLoop_itoaAux_full (fuel u : Nat) (hf : u < fuel) :
    parseUintLoop (itoaAux fuel u []) 0 = if u ≤ maxUint64 then some u else none := by
  induction fuel generalizing u with
  | zero => omega
  | succ n ih =>
    simp only [itoaAux]
    split
    · rename_i h10
      have h1 : 48 ≤ 48 + u ∧ 48 + u ≤ 57 := by omega
      have h2 : u ≤ maxUint64 := by simp only [maxUint64]; omega
      simp only [parseUintLoop, h1, and_self, if_true, h2]
      simp only [maxUint64]
      have h3 : ¬ ((0 : Nat) ≥ (2 ^ 64 - 1) / 10 + 1) := by omega
      have h4 : ¬ (0 * 10 + (48 + u - 48) > 2 ^ 64 - 1) := by omega
      have h5 : 0 * 10 + (48 + u - 48) = u := by omega
      have h6 : ¬ (u > 2 ^ 64 - 1) := by omega
      simp only [h3, h4, h5, h6, if_false]
    · rename_i h10
      rw [itoaAux_acc, parseUintLoop_append, ih (u / 10) (by omega)]
      by_cases hq : u / 10 ≤ maxUint64
      · simp only [hq, if_true, Option.some_bind, parseUintLoop]
        have h1 : 48 ≤ 48 + u % 10 ∧ 48 + u % 10 ≤ 57 := by omega
        have h4 : u / 10 * 10 + (48 + u % 10 - 48) = u := by omega
        simp only [h1, and_self, if_true, h4]
        simp only [maxUint64] at hq ⊢
        by_cases hc : u / 10 ≥ (2 ^ 64 - 1) / 10 + 1
        · have hu : ¬ (u ≤ 2 ^ 64 - 1) := by omega
          simp only [hc, if_true, hu, if_false]
        · by_cases hu : u ≤ 2 ^ 64 - 1
          · have h5 : ¬ (u > 2 ^ 64 - 1) := by omega
            simp only [hc, if_false, h5, hu, if_true]
          · have h5 : u > 2 ^ 64 - 1 := by omega
            simp only [hc, if_false, h5, if_true, hu]
      · have hu : ¬ (u ≤ maxUint64) := by
          simp only [maxUint64] at hq ⊢
          omega
        simp only [hq, if_false, Option.none_bind, hu]

/-- The decimal digits of a number beyond `uint64` do not parse. -/
theorem ParseUint_itoa_full (u : Nat) :
    ParseUint (itoa u) = if u ≤ maxUint64 then some u else none := by
  have hne := itoa_ne_nil u
  have hp := parseUintLoop_itoaAux_full (u + 1) u (by omega)
  unfold ParseUint
  cases h : itoa u with
  | nil => exact absurd h hne
  | cons x xs =>
    simp only
    rw [← h]
    exact hp

theorem bulks_eq_bulksWith (as : List Bytes) :
    bulks as = bulksWith (as.map (fun a => (a, ((13 : Nat), (10 : Nat))))) := by
  induction as with
  | nil => rfl
  | cons a as ih =>
    simp only [bulks, List.map_cons, bulksWith, ih, bulk, bulkWith, CRLF]

theorem multiBulk_eq_multiBulkWith (as : List Bytes) :
    multiBulk as = multiBulkWith (as.map (fun a => (a, ((13 : Nat), (10 : Nat))))) := by
  simp only [multiBulk, multiBulkWith, bulks_eq_bulksWith, List.length_map]

/-- A block that the loop gets past has a buffer within the ceiling. -/
theorem readArgs_bulkWith_ok_bound (i : Nat) (a : Bytes) (t : Nat × Nat) (rest : Bytes)
    (args v : List Bytes) (r : Bytes)
    (h : readArgs (i + 1) (bulkWith a t ++ rest) args = .ok v r) :
    a.length + 2 ≤ maxAlloc := by
  rw [bulkWith_append] at h
  have hline : readLine (36 :: itoa a.length ++ 13 :: 10 :: (a ++ t.1 :: t.2 :: rest))
      = .ok (36 :: itoa a.length) (a ++ t.1 :: t.2 :: rest) :=
    readLine_header 36 _ _ (by decide)
  have hfull := ParseUint_itoa_full a.length
  by_cases hu : a.length ≤ maxUint64
  · rw [if_pos hu] at hfull
    by_cases hbig : maxAlloc < (a.length + 2) % 2 ^ 64
    · rw [readArgs_makeslice i _ _ _ args a.length hline hfull hbig] at h
      simp at h
    · by_cases hw : a.length + 2 < 2 ^ 64
      · rw [Nat.mod_eq_of_lt hw] at hbig
        omega
      · have hsmall : (a.length + 2) % 2 ^ 64 < 2 := by
          simp only [maxUint64] at hu
          omega
        have hlen : (a.length + 2) % 2 ^ 64 ≤ (a ++ t.1 :: t.2 :: rest).length := by
          simp only [List.length_append, List.length_cons]
          omega
        rw [readArgs_slice_panic i _ _ _ args a.length hline hfull hsmall hlen] at h
        simp at h
  · rw [if_neg hu] at hfull
    simp only [readArgs, hline, hfull] at h
    simp at h

theorem readArgs_bulksWith_ok_bounds (bs : List (Bytes × (Nat × Nat))) (rest : Bytes)
    (args v : List Bytes) (r : Bytes)
    (h : readArgs bs.length (bulksWith bs ++ rest) args = .ok v r) :
    ∀ b ∈ bs, b.1.length + 2 ≤ maxAlloc := by
  induction bs generalizing args with
  | nil => simp
  | cons b bs ih =>
    simp only [bulksWith, List.length_cons, List.append_assoc] at h
    have hb := readArgs_bulkWith_ok_bound _ _ _ _ _ _ _ h
    rw [readArgs_bulkWith _ _ _ _ _ hb] at h
    intro c hc
    simp only [List.mem_cons] at hc
    rcases hc with rfl | hc
    · exact hb
    · exact ih _ h c hc

/-- A multi-bulk request that decodes to a command has at least two blocks, and
its count and buffers are within the allocator's ceiling. -/
theorem readCommand_multiBulkWith_ok_bounds (bs : List (Bytes × (Nat × Nat))) (rest : Bytes)
    (cmd : command) (r : Bytes)
    (h : readCommand (multiBulkWith bs ++ rest) = .ok cmd r) :
    2 ≤ bs.length ∧ 16 * bs.length ≤ maxAlloc ∧ ∀ b ∈ bs, b.1.length + 2 ≤ maxAlloc := by
  have e : multiBulkWith bs ++ rest
      = 42 :: itoa bs.length ++ 13 :: 10 :: (bulksWith bs ++ rest) := by
    simp [multiBulkWith, CRLF]
  rw [e] at h
  have hline : readLine (42 :: itoa bs.length ++ 13 :: 10 :: (bulksWith bs ++ rest))
      = .ok (42 :: itoa bs.length) (bulksWith bs ++ rest) :=
    readLine_header 42 _ _ (by decide)
  have hfull := ParseUint_itoa_full bs.length
  by_cases hu : bs.length ≤ maxUint64
  · rw [if_pos hu] at hfull
    by_cases h1 : bs.length ≤ 1
    · simp only [readCommand, hline, hfull, h1, if_true] at h
      simp at h
    · by_cases h2 : 16 * bs.length > maxAlloc
      · simp only [readCommand, hline, hfull, h1, if_false, h2, if_true] at h
        simp at h
      · have hmax : 16 * bs.length ≤ maxAlloc := by omega
        rw [readCommand_count_ok _ _ _ bs.length hline hfull (by omega) hmax] at h
        cases hr : readArgs bs.length (bulksWith bs ++ rest) [] with
        | err e2 r2 => rw [hr] at h; simp at h
        | panic p => rw [hr] at h; simp at h
        | ok v r2 => exact ⟨by omega, hmax, readArgs_bulksWith_ok_bounds bs rest [] v r2 hr⟩
  · rw [if_neg hu] at hfull
    simp only [readCommand, hline, hfull] at h
    simp at h

/-- A multi-bulk request with at least two blocks, all within the allocator's
ceiling, decodes to its payloads whatever the closing bytes are. -/
theorem readCommand_multiBulkWith_ok (bs : List (Bytes × (Nat × Nat))) (rest : Bytes)
    (hn : 2 ≤ bs.length) (hcount : 16 * bs.length ≤ maxAlloc)
    (hlen : ∀ b ∈ bs, b.1.length + 2 ≤ maxAlloc) :
    readCommand (multiBulkWith bs ++ rest)
      = .ok ⟨(bs.map Prod.fst).headD [], (bs.map Prod.fst).tail⟩ rest := by
  cases bs with
  | nil => simp at hn
  | cons b0 bs =>
    have hne : bs ≠ [] := by
      intro h
      rw [h] at hn
      simp at hn
    rw [readCommand_multiBulkWith b0 bs rest hne (by simpa using hcount) hlen]
    rfl

/-! ## The claims -/

/-- C1 (as amended): for every initial store and every key `k` and value `v`
whose block buffers (`len + 2` bytes) are within the allocator's ceiling of
`2^48` bytes, the session whose input is the multi-bulk encoding of SET k v
followed by that of GET k and then end-of-stream writes exactly "+OK\r\n"
followed by "$" + decimal length of v + "\r\n" + v + "\r\n", leaves the store
with `k` set to `v`, and returns on the clean end of stream. -/
theorem C1_set_get_round_trip (s : store) (k v : Bytes)
    (hk : k.length + 2 ≤ maxAlloc) (hv : v.length + 2 ≤ maxAlloc) :
    serve s (multiBulk [SET, k, v] ++ multiBulk [GET, k]) =
      some ⟨OK ++ ([36] ++ itoa v.length ++ CRLF ++ v ++ CRLF), s.Set k v, .disconnected⟩ := by
  have hS : SET.length + 2 ≤ maxAlloc := by decide
  have hG : GET.length + 2 ≤ maxAlloc := by decide
  have h1 : readCommand (multiBulk [SET, k, v] ++ multiBulk [GET, k])
      = .ok ⟨SET, [k, v]⟩ (multiBulk [GET, k]) := by
    apply readCommand_multiBulk
    · simp
    · simp [maxAlloc]
    · intro a ha
      simp only [List.mem_cons, List.mem_singleton, List.not_mem_nil, or_false] at ha
      rcases ha with rfl | rfl | rfl <;> assumption
  have h2 : readCommand (multiBulk [GET, k]) = .ok ⟨GET, [k]⟩ [] := by
    have := readCommand_multiBulk GET [k] [] (by simp) (by simp [maxAlloc]) (by
      intro a ha
      simp only [List.mem_cons, List.mem_singleton, List.not_mem_nil, or_false] at ha
      rcases ha with rfl | rfl <;> assumption)
    simpa using this
  have d1 : dispatch s ⟨SET, [k, v]⟩ = .next OK (s.Set k v) := by
    simp [dispatch, SET, GET]
  have d2 : dispatch (s.Set k v) ⟨GET, [k]⟩ = .next (send v) (s.Set k v) := by
    simp [dispatch, store_Get_Set_same]
  rw [serve_ok s _ _ _ h1, d1]
  simp only
  rw [serve_ok _ _ _ _ h2, d2]
  simp only [serve_nil, Option.map_some', Session.after, send, List.append_nil]

/-- Witness for C1: the scenario of the spec, key "k" and value "hello". -/
theorem C1_set_get_round_trip_witness :
    serve store.empty (multiBulk [SET, [107], [104, 101, 108, 108, 111]] ++ multiBulk [GET, [107]]) =
      some ⟨OK ++ ([36] ++ itoa 5 ++ CRLF ++ [104, 101, 108, 108, 111] ++ CRLF),
        store.empty.Set [107] [104, 101, 108, 108, 111], .disconnected⟩ :=
  C1_set_get_round_trip store.empty [107] [104, 101, 108, 108, 111] (by decide) (by decide)

/-- C1 as stated fails for a value (or key) that needs a buffer above the
allocator's ceiling: for a value or key of `2^63 - 2` bytes, and already for a
value of `2^48 - 1` bytes (buffer of `2^48 + 1` bytes), `make` panics and the
session writes nothing instead of "+OK\r\n" and the bulk reply. -/
theorem C1_counterexample_value_too_long :
    serve store.empty
        (multiBulk [SET, [], List.replicate 9223372036854775806 0] ++ multiBulk [GET, []])
      = some ⟨[], store.empty, .panic .makesliceLen⟩ ∧
    (serve store.empty
        (multiBulk [SET, [], List.replicate 9223372036854775806 0] ++ multiBulk [GET, []])).map
          Session.out
      ≠ some (OK ++ ([36] ++ itoa 9223372036854775806 ++ CRLF ++
          List.replicate 9223372036854775806 0 ++ CRLF)) ∧
    serve store.empty
        (multiBulk [SET, List.replicate 9223372036854775806 0, []] ++
          multiBulk [GET, List.replicate 9223372036854775806 0])
      = some ⟨[], store.empty, .panic .makesliceLen⟩ ∧
    serve store.empty
        (multiBulk [SET, [], List.replicate 281474976710655 0] ++ multiBulk [GET, []])
      = some ⟨[], store.empty, .panic .makesliceLen⟩ := by
  have hl : (List.replicate 9223372036854775806 (0 : Nat)).length = 9223372036854775806 :=
    List.length_replicate _ _
  have hl2 : (List.replicate 281474976710655 (0 : Nat)).length = 281474976710655 :=
    List.length_replicate _ _
  have h1 : serve store.empty
        (multiBulk [SET, [], List.replicate 9223372036854775806 0] ++ multiBulk [GET, []])
      = some ⟨[], store.empty, .panic .makesliceLen⟩ := by
    apply serve_panic
    apply readCommand_third_makeslice
    · decide
    · decide
    · rw [hl]; decide
    · rw [hl]; decide
  refine ⟨h1, ?_, ?_, ?_⟩
  · rw [h1]
    intro h
    have h2 := Option.some.inj h
    exact List.noConfusion h2
  · apply serve_panic
    apply readCommand_middle_makeslice
    · decide
    · rw [hl]; decide
    · rw [hl]; decide
  · apply serve_panic
    apply readCommand_third_makeslice
    · decide
    · decide
    · rw [hl2]; decide
    · rw [hl2]; decide

/-- C2: after any finite sequence of `Set` calls on the empty store, `Get(k)`
is the value of the last `Set` whose key is `k`, and the empty string when there
is none; a single `Set` gives its key the new value and leaves the value of
every other key as it was. -/
theorem C2_store_last_write_wins (ops : List (Bytes × Bytes)) (k : Bytes) :
    ((ops.foldl (fun s op => s.Set op.1 op.2) store.empty).Get k =
      match ops.reverse.find? (fun op => op.1 = k) with
      | some op => op.2
      | none => []) ∧
    (∀ (s : store) (v : Bytes), (s.Set k v).Get k = v) ∧
    (∀ (s : store) (v k2 : Bytes), k2 ≠ k → (s.Set k v).Get k2 = s.Get k2) := by
  refine ⟨?_, fun s v => store_Get_Set_same s k v, fun s v k2 h => store_Get_Set_other s k v k2 h⟩
  rw [store_foldl_Get]
  rfl

/-- C3 (as amended): for every list of byte strings a_0 :: as with at least two
elements whose buffers are within the allocator's ceiling (`16 * n <= 2^48` for
the count `n` and `len + 2 <= 2^48` for every string) and every trailing input
`rest`, `readCommand` on the canonical multi-bulk encoding followed by `rest`
returns, without error, the command with Name = a_0 and Args = as (the
remaining n-1 strings, in order) and leaves exactly `rest` unread. -/
theorem C3_multi_bulk_decode (a0 : Bytes) (as : List Bytes) (rest : Bytes)
    (hn : 2 ≤ (a0 :: as).length)
    (hcount : 16 * (a0 :: as).length ≤ maxAlloc)
    (hlen : ∀ a ∈ a0 :: as, a.length + 2 ≤ maxAlloc) :
    readCommand (multiBulk (a0 :: as) ++ rest) = .ok ⟨a0, as⟩ rest ∧
      as.length = (a0 :: as).length - 1 := by
  refine ⟨readCommand_multiBulk a0 as rest ?_ hcount hlen, by simp⟩
  intro h
  rw [h] at hn
  simp at hn

/-- Witness for C3: GET with the key "k\r\n", followed by two more bytes. -/
theorem C3_multi_bulk_decode_witness :
    readCommand (multiBulk (GET :: [[107, 13, 10]]) ++ [1, 2]) = .ok ⟨GET, [[107, 13, 10]]⟩ [1, 2] ∧
      [[107, 13, 10]].length = (GET :: [[107, 13, 10]]).length - 1 :=
  C3_multi_bulk_decode GET [[107, 13, 10]] [1, 2] (by decide) (by decide) (by decide)

/-- C3 as stated fails when a buffer is above the allocator's ceiling: a payload
of `2^63 - 2` bytes, and already one of `2^48 - 1` bytes, makes
`make([]byte, argLen+2)` panic; a count of `2^63`, and already one of
`2^44 + 1`, makes `make([]string, 0, argc)` panic; no command is returned. -/
theorem C3_counterexample_not_allocatable :
    readCommand (multiBulk [[], List.replicate 9223372036854775806 0] ++ [])
      = .panic .makesliceLen ∧
    readCommand (multiBulk [[], List.replicate 9223372036854775806 0] ++ [])
      ≠ .ok ⟨[], [List.replicate 9223372036854775806 0]⟩ [] ∧
    readCommand (multiBulk (List.replicate 9223372036854775808 []) ++ [])
      = .panic .makesliceCap ∧
    readCommand (multiBulk (List.replicate 9223372036854775808 []) ++ [])
      ≠ .ok ⟨[], List.replicate 9223372036854775807 []⟩ [] ∧
    readCommand (multiBulk [[], List.replicate 281474976710655 0] ++ [])
      = .panic .makesliceLen ∧
    readCommand (multiBulk (List.replicate 17592186044417 []) ++ [])
      = .panic .makesliceCap := by
  have h1 : readCommand (multiBulk [[], List.replicate 9223372036854775806 0] ++ [])
      = .panic .makesliceLen := by
    apply readCommand_second_makeslice
    · decide
    · rw [List.length_replicate]; decide
    · rw [List.length_replicate]; decide
  have h2 : readCommand (multiBulk (List.replicate 9223372036854775808 []) ++ [])
      = .panic .makesliceCap := by
    apply readCommand_makeslice
    · rw [List.length_replicate]; decide
    · rw [List.length_replicate]; decide
  refine ⟨h1, ?_, h2, ?_, ?_, ?_⟩
  · rw [h1]
    intro h
    exact Result.noConfusion h
  · rw [h2]
    intro h
    exact Result.noConfusion h
  · apply readCommand_second_makeslice
    · decide
    · rw [List.length_replicate]; decide
    · rw [List.length_replicate]; decide
  · apply readCommand_makeslice
    · rw [List.length_replicate]; decide
    · rw [List.length_replicate]; decide

/-- C4: for every `line` without LF that does not begin with `*` and does not
end with CR, and every `rest`, `readCommand` on `line ++ "\r\n" ++ rest` and on
`line ++ "\n" ++ rest` returns, without error, the command whose Name is exactly
`line` and whose argument list is empty, leaving exactly `rest` unread. -/
theorem C4_inline_decoding (line rest : Bytes)
    (hlf : 10 ∉ line) (hstar : line.head? ≠ some 42) (hcr : line.getLast? ≠ some 13) :
    readCommand (line ++ CRLF ++ rest) = .ok ⟨line, []⟩ rest ∧
    readCommand (line ++ [10] ++ rest) = .ok ⟨line, []⟩ rest := by
  have h1 : readLine (line ++ CRLF ++ rest) = .ok line rest := by
    have := readLine_crlf line rest hlf
    simpa [CRLF] using this
  have h2 : readLine (line ++ [10] ++ rest) = .ok line rest := by
    have := readLine_lf line rest hlf hcr
    simpa using this
  cases line with
  | nil => simp only [readCommand, h1, h2, and_self]
  | cons b bs =>
    have hb : b ≠ 42 := fun e => hstar (by simp [e])
    simp only [readCommand, h1, h2]
    constructor <;> split <;> first | rfl | (rename_i heq; simp at heq; exact absurd heq.1 hb)

/-- Witness for C4: the line "PING x" (with its inner blank kept), followed by
the byte "Q". -/
theorem C4_inline_decoding_witness :
    readCommand ([80, 73, 78, 71, 32, 120] ++ CRLF ++ [81]) = .ok ⟨[80, 73, 78, 71, 32, 120], []⟩ [81] ∧
    readCommand ([80, 73, 78, 71, 32, 120] ++ [10] ++ [81]) = .ok ⟨[80, 73, 78, 71, 32, 120], []⟩ [81] :=
  C4_inline_decoding [80, 73, 78, 71, 32, 120] [81] (by decide) (by decide) (by decide)

/-- C5: for every store and every key `k` without an entry in the store's map,
the dispatch of GET with first argument `k` writes exactly the empty bulk reply
"$0\r\n\r\n" (not an Error reply), keeps the store, and goes on to the next
iteration: a session whose next command is this GET writes the reply and then
does what the session on the remaining input does from the same store. -/
theorem C5_get_unset_key (s : store) (k : Bytes) (args : List Bytes) (input rest : Bytes)
    (hk : s.data k = none)
    (hcmd : readCommand input = .ok ⟨GET, k :: args⟩ rest) :
    dispatch s ⟨GET, k :: args⟩ = .next [36, 48, 13, 10, 13, 10] s ∧
    ∃ r, serve s rest = some r ∧
      serve s input = some ⟨[36, 48, 13, 10, 13, 10] ++ r.out, r.store, r.exit⟩ := by
  have hd : dispatch s ⟨GET, k :: args⟩ = .next [36, 48, 13, 10, 13, 10] s := by
    simp only [dispatch, if_true, store.Get, hk, Option.getD_none]
    rfl
  obtain ⟨r, hr2⟩ := serve_total s rest
  refine ⟨hd, r, hr2, ?_⟩
  rw [serve_ok s input _ rest hcmd, hd]
  simp only [hr2, Option.map_some', Session.after]

/-- Witness for C5: the empty store and the request
"*2\r\n$3\r\nGET\r\n$1\r\nk\r\n" followed by the inline request "X\n". -/
theorem C5_get_unset_key_witness :
    store.empty.data [107] = none ∧
    readCommand [42, 50, 13, 10, 36, 51, 13, 10, 71, 69, 84, 13, 10, 36, 49, 13, 10, 107, 13, 10,
        88, 10] = .ok ⟨GET, [107] :: []⟩ [88, 10] ∧
    dispatch store.empty ⟨GET, [107] :: []⟩ = .next [36, 48, 13, 10, 13, 10] store.empty ∧
    ∃ r, serve store.empty [88, 10] = some r ∧
      serve store.empty [42, 50, 13, 10, 36, 51, 13, 10, 71, 69, 84, 13, 10, 36, 49, 13, 10, 107,
        13, 10, 88, 10] = some ⟨[36, 48, 13, 10, 13, 10] ++ r.out, r.store, r.exit⟩ :=
  ⟨rfl, by decide, C5_get_unset_key store.empty [107] [] _ [88, 10] rfl (by decide)⟩

/-- C6 (the code at the failing input): on the input "FOO\r\n" the session
writes "-ERR unkonwn command: FOO\r\n", with the message spelled as at
main.go:105; the reply is not "-ERR unknown command: FOO\r\n" and does not
contain "unknown command: FOO". -/
theorem C6_unknown_command_reply_misspelled :
    (serve store.empty [70, 79, 79, 13, 10]).map Session.out =
      some [45, 69, 82, 82, 32, 117, 110, 107, 111, 110, 119, 110, 32, 99, 111, 109, 109, 97,
        110, 100, 58, 32, 70, 79, 79, 13, 10] ∧
    [45, 69, 82, 82, 32, 117, 110, 107, 111, 110, 119, 110, 32, 99, 111, 109, 109, 97,
        110, 100, 58, 32, 70, 79, 79, 13, 10] ≠ ERR ++ msgUnknownCommand ++ [70, 79, 79] ++ CRLF ∧
    ¬ (msgUnknownCommand ++ [70, 79, 79]) <:+:
      [45, 69, 82, 82, 32, 117, 110, 107, 111, 110, 119, 110, 32, 99, 111, 109, 109, 97,
        110, 100, 58, 32, 70, 79, 79, 13, 10] := by
  refine ⟨by decide, by decide, by decide⟩

/-- C7: for every store `s`, every `request` that, in front of `rest`, decodes
to a command named neither GET nor SET, the session on `request ++ rest` from
`s` writes one Error reply and then exactly what the session on `rest` from the
same store `s` writes; its final store and the way it returns are those of the
session on `rest`. -/
theorem C7_unknown_command_non_fatal (s : store) (request rest : Bytes) (cmd : command)
    (hdec : readCommand (request ++ rest) = .ok cmd rest)
    (hget : cmd.Name ≠ GET) (hset : cmd.Name ≠ SET) :
    ∃ r, serve s rest = some r ∧
      serve s (request ++ rest) =
        some ⟨(ERR ++ (msgServeDefault ++ cmd.Name) ++ CRLF) ++ r.out, r.store, r.exit⟩ := by
  obtain ⟨r, hr⟩ := serve_total s rest
  refine ⟨r, hr, ?_⟩
  have hd : dispatch s cmd = .next (sendError (msgServeDefault ++ cmd.Name)) s := by
    simp only [dispatch, hget, hset, if_false]
  rw [serve_ok s _ cmd rest hdec, hd]
  simp only [hr, Option.map_some', Session.after, sendError]

/-- Witness for C7: the request "FOO\r\n" in front of the request "GET\r\n". -/
theorem C7_unknown_command_non_fatal_witness :
    readCommand ([70, 79, 79, 13, 10] ++ [71, 69, 84, 13, 10])
      = .ok ⟨[70, 79, 79], []⟩ [71, 69, 84, 13, 10] ∧
    ∃ r, serve store.empty [71, 69, 84, 13, 10] = some r ∧
      serve store.empty ([70, 79, 79, 13, 10] ++ [71, 69, 84, 13, 10]) =
        some ⟨(ERR ++ (msgServeDefault ++ [70, 79, 79]) ++ CRLF) ++ r.out, r.store, r.exit⟩ :=
  ⟨by decide,
   C7_unknown_command_non_fatal store.empty [70, 79, 79, 13, 10] [71, 69, 84, 13, 10]
     ⟨[70, 79, 79], []⟩ (by decide) (by decide) (by decide)⟩

/-- C8: for every first line of the form "*" ++ t, `readCommand` returns the
protocol error with message "invalid argument count: " ++ t (and no command,
with the input behind the count line unread) if and only if `t` does not parse
as an unsigned base-10 64-bit integer or parses to a value <= 1; when `t` parses
to a value >= 2, every protocol error `readCommand` returns carries a message of
the argument loop, never the one of the count line. -/
theorem C8_bad_argument_count (input t rest : Bytes)
    (hline : readLine input = .ok (42 :: t) rest) :
    ((∃ r, readCommand input = .err (.protocolError (msgInvalidCount ++ t)) r) ↔
        (ParseUint t = none ∨ ∃ v, ParseUint t = some v ∧ v ≤ 1)) ∧
    ((ParseUint t = none ∨ ∃ v, ParseUint t = some v ∧ v ≤ 1) →
        readCommand input = .err (.protocolError (msgInvalidCount ++ t)) rest) ∧
    (∀ v, ParseUint t = some v → 2 ≤ v → ∀ m r,
        readCommand input = .err (.protocolError m) r →
          (∃ l, m = msgUnknownCommand ++ l) ∨ (∃ l, m = msgInvalidLength ++ l)) := by
  have part2 : (ParseUint t = none ∨ ∃ v, ParseUint t = some v ∧ v ≤ 1) →
      readCommand input = .err (.protocolError (msgInvalidCount ++ t)) rest := by
    rintro (hp | ⟨v, hp, hv⟩)
    · simp only [readCommand, hline, hp]
    · simp only [readCommand, hline, hp, hv, if_true]
  have part3 : ∀ v, ParseUint t = some v → 2 ≤ v → ∀ m r,
      readCommand input = .err (.protocolError m) r →
        (∃ l, m = msgUnknownCommand ++ l) ∨ (∃ l, m = msgInvalidLength ++ l) := by
    intro v hp hv m r h
    by_cases hmax : 16 * v ≤ maxAlloc
    · rw [readCommand_count_ok input t rest v hline hp hv hmax] at h
      cases hr : readArgs v rest [] with
      | err e r2 =>
        rw [hr] at h
        simp only [Result.err.injEq] at h
        rw [h.1] at hr
        exact readArgs_protocol_msg _ _ _ _ _ hr
      | panic p => rw [hr] at h; simp at h
      | ok val r2 =>
        rw [hr] at h
        cases val <;> simp at h
    · have h1 : ¬ (v ≤ 1) := by omega
      have h3 : 16 * v > maxAlloc := by omega
      simp only [readCommand, hline, hp, h1, h3, if_false, if_true] at h
      simp at h
  refine ⟨⟨?_, fun h => ⟨rest, part2 h⟩⟩, part2, part3⟩
  rintro ⟨r, h⟩
  cases hp : ParseUint t with
  | none => exact Or.inl rfl
  | some v =>
    by_cases hv : v ≤ 1
    · exact Or.inr ⟨v, rfl, hv⟩
    · exfalso
      rcases part3 v hp (by omega) _ r h with ⟨l, hl⟩ | ⟨l, hl⟩
      · exact msgInvalidCount_ne_unknown t l hl
      · exact msgInvalidCount_ne_length t l hl

/-- Witness for C8: the first lines "*", "*0", "*1", "*-3" and "*abc". -/
theorem C8_bad_argument_count_witness :
    (readLine [42, 13, 10] = .ok (42 :: []) [] ∧
      readCommand [42, 13, 10] = .err (.protocolError (msgInvalidCount ++ [])) []) ∧
    (readLine [42, 48, 13, 10] = .ok (42 :: [48]) [] ∧
      readCommand [42, 48, 13, 10] = .err (.protocolError (msgInvalidCount ++ [48])) []) ∧
    (readLine [42, 49, 13, 10] = .ok (42 :: [49]) [] ∧
      readCommand [42, 49, 13, 10] = .err (.protocolError (msgInvalidCount ++ [49])) []) ∧
    (readLine [42, 45, 51, 13, 10] = .ok (42 :: [45, 51]) [] ∧
      readCommand [42, 45, 51, 13, 10]
        = .err (.protocolError (msgInvalidCount ++ [45, 51])) []) ∧
    (readLine [42, 97, 98, 99, 13, 10] = .ok (42 :: [97, 98, 99]) [] ∧
      readCommand [42, 97, 98, 99, 13, 10]
        = .err (.protocolError (msgInvalidCount ++ [97, 98, 99])) []) :=
  ⟨⟨by decide, (C8_bad_argument_count [42, 13, 10] [] [] (by decide)).2.1
      (Or.inl (by decide))⟩,
   ⟨by decide, (C8_bad_argument_count [42, 48, 13, 10] [48] [] (by decide)).2.1
      (Or.inr ⟨0, by decide, by decide⟩)⟩,
   ⟨by decide, (C8_bad_argument_count [42, 49, 13, 10] [49] [] (by decide)).2.1
      (Or.inr ⟨1, by decide, by decide⟩)⟩,
   ⟨by decide, (C8_bad_argument_count [42, 45, 51, 13, 10] [45, 51] [] (by decide)).2.1
      (Or.inl (by decide))⟩,
   ⟨by decide, (C8_bad_argument_count [42, 97, 98, 99, 13, 10] [97, 98, 99] [] (by decide)).2.1
      (Or.inl (by decide))⟩⟩

/-- C9: inside a multi-bulk command whose count line is accepted (count `argc`
at least 2), after `k < argc` well-formed blocks: when the argument slice is
made (`16 * argc <= 2^48`), so that the loop reads lines, and the line read
where the next argument-length header is expected does not begin with "$", or
begins with "$" and its remainder does not parse as an unsigned base-10 64-bit
integer, `readCommand` returns a `protocolError` (not an I/O error, not a
command) and the unread input is exactly what follows that line: no payload
byte of the block is read.  For a larger count `make([]string, 0, argc)` panics
and no line is read where a header is expected. -/
theorem C9_malformed_length_line (input t r0 : Bytes) (argc k : Nat) (acc : List Bytes)
    (r1 line r2 : Bytes)
    (hcount : readLine input = .ok (42 :: t) r0)
    (hparse : ParseUint t = some argc) (h2 : 2 ≤ argc)
    (hk : k < argc)
    (hprev : readArgs k r0 [] = .ok acc r1)
    (hline : readLine r1 = .ok line r2) :
    (16 * argc ≤ maxAlloc →
      (line.head? ≠ some 36 →
        readCommand input = .err (.protocolError (msgUnknownCommand ++ line)) r2) ∧
      (∀ u, line = 36 :: u → ParseUint u = none →
        readCommand input = .err (.protocolError (msgInvalidLength ++ u)) r2)) ∧
    (maxAlloc < 16 * argc → readCommand input = .panic .makesliceCap) := by
  constructor
  · intro hmax
    obtain ⟨j, hj⟩ : ∃ j, argc = k + (j + 1) := ⟨argc - k - 1, by omega⟩
    have hc := readCommand_count_ok input t r0 argc hcount hparse h2 hmax
    rw [hj, readArgs_add k (j + 1) r0 [], hprev] at hc
    simp only at hc
    constructor
    · intro hhead
      have hl : readArgs (j + 1) r1 acc
          = .err (.protocolError (msgUnknownCommand ++ line)) r2 := by
        simp only [readArgs, hline]
        split
        · rename_i u
          simp at hhead
        · rfl
      rw [hc, hl]
    · intro u hu hp
      have hl : readArgs (j + 1) r1 acc
          = .err (.protocolError (msgInvalidLength ++ u)) r2 := by
        rw [hu] at hline
        simp only [readArgs, hline, hp]
      rw [hc, hl]
  · intro hbig
    have h1 : ¬ (argc ≤ 1) := by omega
    simp only [readCommand, hcount, hparse, h1, if_false, gt_iff_lt, hbig, if_true]

/-- Witness for C9: in "*2\r\n$3\r\nGET\r\nx1\r\nk\r\n" the second header is
"x1", and in "*2\r\n$3\r\nGET\r\n$-1\r\nk\r\n" it is "$-1"; in both the bytes
"k\r\n" stay unread. -/
theorem C9_malformed_length_line_witness :
    readCommand [42, 50, 13, 10, 36, 51, 13, 10, 71, 69, 84, 13, 10, 120, 49, 13, 10, 107, 13, 10]
      = .err (.protocolError (msgUnknownCommand ++ [120, 49])) [107, 13, 10] ∧
    readCommand [42, 50, 13, 10, 36, 51, 13, 10, 71, 69, 84, 13, 10, 36, 45, 49, 13, 10, 107, 13,
        10]
      = .err (.protocolError (msgInvalidLength ++ [45, 49])) [107, 13, 10] :=
  ⟨((C9_malformed_length_line
      [42, 50, 13, 10, 36, 51, 13, 10, 71, 69, 84, 13, 10, 120, 49, 13, 10, 107, 13, 10]
      [50] [36, 51, 13, 10, 71, 69, 84, 13, 10, 120, 49, 13, 10, 107, 13, 10] 2 1 [GET]
      [120, 49, 13, 10, 107, 13, 10] [120, 49] [107, 13, 10]
      (by decide) (by decide) (by decide) (by decide) (by decide) (by decide)).1
      (by decide)).1 (by decide),
   ((C9_malformed_length_line
      [42, 50, 13, 10, 36, 51, 13, 10, 71, 69, 84, 13, 10, 36, 45, 49, 13, 10, 107, 13, 10]
      [50] [36, 51, 13, 10, 71, 69, 84, 13, 10, 36, 45, 49, 13, 10, 107, 13, 10] 2 1 [GET]
      [36, 45, 49, 13, 10, 107, 13, 10] [36, 45, 49] [107, 13, 10]
      (by decide) (by decide) (by decide) (by decide) (by decide) (by decide)).1
      (by decide)).2 [45, 49] rfl (by decide)⟩

/-- C10: for every store `s` and every input on which `readCommand` returns a
`protocolError` with message `m`, the session writes exactly
"-ERR " ++ m ++ "\r\n" and returns: whatever follows in the input is neither
decoded nor answered, and the store is the one the session started from. -/
theorem C10_protocol_error_fatal (s : store) (input m unread : Bytes)
    (h : readCommand input = .err (.protocolError m) unread) :
    serve s input = some ⟨ERR ++ m ++ CRLF, s, .protocolError⟩ := by
  unfold serve
  rw [serveLoop, h]
  rfl

/-- Witness for C10: the request "*1\r\n" in front of the well-formed request
"*2\r\n$3\r\nGET\r\n$1\r\nk\r\n", which is never answered. -/
theorem C10_protocol_error_fatal_witness :
    readCommand [42, 49, 13, 10, 42, 50, 13, 10, 36, 51, 13, 10, 71, 69, 84, 13, 10, 36, 49, 13,
        10, 107, 13, 10]
      = .err (.protocolError (msgInvalidCount ++ [49]))
          [42, 50, 13, 10, 36, 51, 13, 10, 71, 69, 84, 13, 10, 36, 49, 13, 10, 107, 13, 10] ∧
    serve store.empty [42, 49, 13, 10, 42, 50, 13, 10, 36, 51, 13, 10, 71, 69, 84, 13, 10, 36, 49,
        13, 10, 107, 13, 10]
      = some ⟨ERR ++ (msgInvalidCount ++ [49]) ++ CRLF, store.empty, .protocolError⟩ :=
  ⟨by decide,
   C10_protocol_error_fatal store.empty
     [42, 49, 13, 10, 42, 50, 13, 10, 36, 51, 13, 10, 71, 69, 84, 13, 10, 36, 49, 13, 10, 107,
       13, 10]
     (msgInvalidCount ++ [49])
     [42, 50, 13, 10, 36, 51, 13, 10, 71, 69, 84, 13, 10, 36, 49, 13, 10, 107, 13, 10]
     (by decide)⟩

/-- C11: for every store `s` and every following input, when the decoded
command is named GET with an empty argument list the session writes exactly
"-ERR GET expects 1 argument\r\n", and when it is named SET with an empty
argument list it writes exactly "-ERR SET expects 2 arguments\r\n"; in both
cases `serve` returns at once, with nothing of the remaining input decoded or
answered and the store as it was.  The inline requests "GET\r\n" and "SET\r\n"
are such commands. -/
theorem C11_zero_argument_fatal (s : store) (input rest : Bytes) :
    (readCommand input = .ok ⟨GET, []⟩ rest →
      serve s input = some ⟨ERR ++ msgGetArity ++ CRLF, s, .arityError⟩) ∧
    (readCommand input = .ok ⟨SET, []⟩ rest →
      serve s input = some ⟨ERR ++ msgSetArity ++ CRLF, s, .arityError⟩) ∧
    serve s (GET ++ CRLF ++ rest) = some ⟨ERR ++ msgGetArity ++ CRLF, s, .arityError⟩ ∧
    serve s (SET ++ CRLF ++ rest) = some ⟨ERR ++ msgSetArity ++ CRLF, s, .arityError⟩ := by
  have dg : dispatch s ⟨GET, []⟩ = .stop (ERR ++ msgGetArity ++ CRLF) .arityError := by
    simp [dispatch, sendError]
  have ds : dispatch s ⟨SET, []⟩ = .stop (ERR ++ msgSetArity ++ CRLF) .arityError := by
    simp [dispatch, sendError, SET, GET]
  have hg : readCommand (GET ++ CRLF ++ rest) = .ok ⟨GET, []⟩ rest := by
    apply readCommand_inline
    · have := readLine_crlf GET rest (by decide)
      simpa [CRLF] using this
    · decide
  have hs : readCommand (SET ++ CRLF ++ rest) = .ok ⟨SET, []⟩ rest := by
    apply readCommand_inline
    · have := readLine_crlf SET rest (by decide)
      simpa [CRLF] using this
    · decide
  exact ⟨fun h => serve_stop s _ _ _ _ _ h dg, fun h => serve_stop s _ _ _ _ _ h ds,
    serve_stop s _ _ _ _ _ hg dg, serve_stop s _ _ _ _ _ hs ds⟩

/-- Witness for C11: "GET\n" and "SET\n", each in front of the well-formed
request "*2\r\n$3\r\nGET\r\n$1\r\nk\r\n", which is never answered. -/
theorem C11_zero_argument_fatal_witness :
    (readCommand [71, 69, 84, 10, 42, 50, 13, 10, 36, 51, 13, 10, 71, 69, 84, 13, 10, 36, 49, 13,
        10, 107, 13, 10]
      = .ok ⟨GET, []⟩
          [42, 50, 13, 10, 36, 51, 13, 10, 71, 69, 84, 13, 10, 36, 49, 13, 10, 107, 13, 10] ∧
     serve store.empty [71, 69, 84, 10, 42, 50, 13, 10, 36, 51, 13, 10, 71, 69, 84, 13, 10, 36,
        49, 13, 10, 107, 13, 10]
      = some ⟨ERR ++ msgGetArity ++ CRLF, store.empty, .arityError⟩) ∧
    (readCommand [83, 69, 84, 10, 42, 50, 13, 10, 36, 51, 13, 10, 71, 69, 84, 13, 10, 36, 49, 13,
        10, 107, 13, 10]
      = .ok ⟨SET, []⟩
          [42, 50, 13, 10, 36, 51, 13, 10, 71, 69, 84, 13, 10, 36, 49, 13, 10, 107, 13, 10] ∧
     serve store.empty [83, 69, 84, 10, 42, 50, 13, 10, 36, 51, 13, 10, 71, 69, 84, 13, 10, 36,
        49, 13, 10, 107, 13, 10]
      = some ⟨ERR ++ msgSetArity ++ CRLF, store.empty, .arityError⟩) :=
  ⟨⟨by decide,
    (C11_zero_argument_fatal store.empty
      [71, 69, 84, 10, 42, 50, 13, 10, 36, 51, 13, 10, 71, 69, 84, 13, 10, 36, 49, 13, 10, 107,
        13, 10]
      [42, 50, 13, 10, 36, 51, 13, 10, 71, 69, 84, 13, 10, 36, 49, 13, 10, 107, 13, 10]).1
      (by decide)⟩,
   ⟨by decide,
    (C11_zero_argument_fatal store.empty
      [83, 69, 84, 10, 42, 50, 13, 10, 36, 51, 13, 10, 71, 69, 84, 13, 10, 36, 49, 13, 10, 107,
        13, 10]
      [42, 50, 13, 10, 36, 51, 13, 10, 71, 69, 84, 13, 10, 36, 49, 13, 10, 107, 13, 10]).2.1
      (by decide)⟩⟩

/-- C12: for every store and every command named SET with exactly one argument,
the test `len(cmd.Args) < 1` passes, no Error reply is sent, and the index
expression `cmd.Args[1]` is out of range: the dispatch ends in a run-time panic
with nothing written (no "+OK\r\n") and the store as it was; a session whose
next command is such a SET ends the same way.  For every SET with at least two
arguments the access is in range: "+OK\r\n" is written and the store handed to
the next iteration has the value `Args[1]` under the key `Args[0]` and is the
old store at every other key; a session whose next command is such a SET writes
"+OK\r\n" and goes on from that store. -/
theorem C12_set_one_argument (s : store) (k : Bytes) (input rest : Bytes)
    (hcmd : readCommand input = .ok ⟨SET, [k]⟩ rest) :
    dispatch s ⟨SET, [k]⟩ = .stop [] (.panic .indexOutOfRange) ∧
    serve s input = some ⟨[], s, .panic .indexOutOfRange⟩ ∧
    ∀ (v : Bytes) (more : List Bytes),
      ∃ s2, dispatch s ⟨SET, k :: v :: more⟩ = .next OK s2 ∧
        s2.data k = some v ∧ s2.Get k = v ∧
        (∀ k2, k2 ≠ k → s2.data k2 = s.data k2) ∧
        ∀ input2 rest2, readCommand input2 = .ok ⟨SET, k :: v :: more⟩ rest2 →
          ∃ r, serve s2 rest2 = some r ∧
            serve s input2 = some ⟨OK ++ r.out, r.store, r.exit⟩ := by
  have d1 : dispatch s ⟨SET, [k]⟩ = .stop [] (.panic .indexOutOfRange) := by
    simp [dispatch, SET, GET]
  refine ⟨d1, serve_stop s _ _ _ _ _ hcmd d1, fun v more => ?_⟩
  have d2 : dispatch s ⟨SET, k :: v :: more⟩ = .next OK (s.Set k v) := by
    simp [dispatch, SET, GET]
  refine ⟨s.Set k v, d2, by simp [store.Set], store_Get_Set_same s k v, ?_, ?_⟩
  · intro k2 hk2
    simp [store.Set, hk2]
  · intro input2 rest2 h2
    obtain ⟨r, hr⟩ := serve_total (s.Set k v) rest2
    refine ⟨r, hr, ?_⟩
    rw [serve_ok s input2 _ rest2 h2, d2]
    simp only [hr, Option.map_some', Session.after]

/-- Witness for C12: the request "*2\r\n$3\r\nSET\r\n$1\r\nk\r\n". -/
theorem C12_set_one_argument_witness :
    readCommand [42, 50, 13, 10, 36, 51, 13, 10, 83, 69, 84, 13, 10, 36, 49, 13, 10, 107, 13, 10]
      = .ok ⟨SET, [[107]]⟩ [] ∧
    dispatch store.empty ⟨SET, [[107]]⟩ = .stop [] (.panic .indexOutOfRange) ∧
    serve store.empty
        [42, 50, 13, 10, 36, 51, 13, 10, 83, 69, 84, 13, 10, 36, 49, 13, 10, 107, 13, 10]
      = some ⟨[], store.empty, .panic .indexOutOfRange⟩ ∧
    ∀ (v : Bytes) (more : List Bytes),
      ∃ s2, dispatch store.empty ⟨SET, [107] :: v :: more⟩ = .next OK s2 ∧
        s2.data [107] = some v ∧ s2.Get [107] = v ∧
        (∀ k2, k2 ≠ [107] → s2.data k2 = store.empty.data k2) ∧
        ∀ input2 rest2, readCommand input2 = .ok ⟨SET, [107] :: v :: more⟩ rest2 →
          ∃ r, serve s2 rest2 = some r ∧
            serve store.empty input2 = some ⟨OK ++ r.out, r.store, r.exit⟩ :=
  ⟨by decide,
   C12_set_one_argument store.empty [107]
     [42, 50, 13, 10, 36, 51, 13, 10, 83, 69, 84, 13, 10, 36, 49, 13, 10, 107, 13, 10] []
     (by decide)⟩

/-- C13 (as amended): `readCommand` on no remaining input returns `io.EOF`.
For an input that ends after an accepted count line whose argument slice is
made (count `argc` with `2 <= argc` and `16 * argc <= 2^48`) and after
`k < argc` complete blocks:
* when it ends where the next length line is expected (directly behind the
  count line or behind a complete block), `readCommand` returns `io.EOF` and
  `serve` takes its clean-disconnect branch;
* when it ends directly behind a length line "$L" with `L + 2 <= 2^48`,
  `readCommand` returns `io.EOF` and `serve` takes its clean-disconnect branch;
* when it ends behind such a length line and at least one but fewer than
  `L + 2` further bytes, `readCommand` returns `io.ErrUnexpectedEOF`, which is
  not `io.EOF`, and `serve` takes its I/O-error branch. -/
theorem C13_end_of_stream_classes (s : store) (input t r0 : Bytes) (argc k : Nat)
    (acc : List Bytes) (r1 : Bytes)
    (hcount : readLine input = .ok (42 :: t) r0)
    (hparse : ParseUint t = some argc) (h2 : 2 ≤ argc) (hmax : 16 * argc ≤ maxAlloc)
    (hk : k < argc)
    (hprev : readArgs k r0 [] = .ok acc r1) :
    (readCommand [] = .err .EOF [] ∧ serve s [] = some ⟨[], s, .disconnected⟩) ∧
    (r1 = [] →
      readCommand input = .err .EOF [] ∧ serve s input = some ⟨[], s, .disconnected⟩) ∧
    (∀ u argLen, readLine r1 = .ok (36 :: u) [] → ParseUint u = some argLen →
      argLen + 2 ≤ maxAlloc →
      readCommand input = .err .EOF [] ∧ serve s input = some ⟨[], s, .disconnected⟩) ∧
    (∀ u r2 argLen, readLine r1 = .ok (36 :: u) r2 → ParseUint u = some argLen →
      argLen + 2 ≤ maxAlloc → r2 ≠ [] → r2.length < argLen + 2 →
      readCommand input = .err .ErrUnexpectedEOF [] ∧
        serve s input = some ⟨[], s, .readError⟩) ∧
    Error.ErrUnexpectedEOF ≠ Error.EOF := by
  obtain ⟨j, hj⟩ : ∃ j, argc = k + (j + 1) := ⟨argc - k - 1, by omega⟩
  have hc := readCommand_after_blocks input t r0 argc k (j + 1) acc r1 hcount hparse h2 hmax
    hj hprev
  have hmod : ∀ argLen, argLen + 2 ≤ maxAlloc → (argLen + 2) % 2 ^ 64 = argLen + 2 := by
    intro argLen h
    simp only [maxAlloc] at h
    exact Nat.mod_eq_of_lt (by omega)
  refine ⟨⟨rfl, rfl⟩, ?_, ?_, ?_, by decide⟩
  · intro hr
    have h : readCommand input = .err .EOF [] := by
      rw [hc, hr, readArgs_eof_header]
    exact ⟨h, serve_err_EOF s input [] h⟩
  · intro u argLen hline hp hfit
    have h : readCommand input = .err .EOF [] := by
      rw [hc, readArgs_eof_payload j r1 u acc argLen hline hp (by rw [hmod _ hfit]; exact hfit)
        (by rw [hmod _ hfit]; omega)]
    exact ⟨h, serve_err_EOF s input [] h⟩
  · intro u r2 argLen hline hp hfit hne hshort
    have h : readCommand input = .err .ErrUnexpectedEOF [] := by
      rw [hc, readArgs_unexpected j r1 u r2 acc argLen hline hp
        (by rw [hmod _ hfit]; exact hfit) hne (by rw [hmod _ hfit]; exact hshort)]
    exact ⟨h, serve_err_unexpected s input [] h⟩

/-- Witness for C13: "*2\r\n$3\r\nGET\r\n$1\r\nk" ends inside the second block
and is an I/O error; "*2\r\n$3\r\nGET\r\n" ends behind the first block and is a
clean end. -/
theorem C13_end_of_stream_classes_witness :
    (readCommand [42, 50, 13, 10, 36, 51, 13, 10, 71, 69, 84, 13, 10, 36, 49, 13, 10, 107]
        = .err .ErrUnexpectedEOF [] ∧
      serve store.empty [42, 50, 13, 10, 36, 51, 13, 10, 71, 69, 84, 13, 10, 36, 49, 13, 10, 107]
        = some ⟨[], store.empty, .readError⟩) ∧
    (readCommand [42, 50, 13, 10, 36, 51, 13, 10, 71, 69, 84, 13, 10] = .err .EOF [] ∧
      serve store.empty [42, 50, 13, 10, 36, 51, 13, 10, 71, 69, 84, 13, 10]
        = some ⟨[], store.empty, .disconnected⟩) :=
  ⟨(C13_end_of_stream_classes store.empty
      [42, 50, 13, 10, 36, 51, 13, 10, 71, 69, 84, 13, 10, 36, 49, 13, 10, 107] [50]
      [36, 51, 13, 10, 71, 69, 84, 13, 10, 36, 49, 13, 10, 107] 2 1 [GET]
      [36, 49, 13, 10, 107]
      (by decide) (by decide) (by decide) (by decide) (by decide) (by decide)).2.2.2.1
      [49] [107] 1 (by decide) (by decide) (by decide) (by decide) (by decide),
   (C13_end_of_stream_classes store.empty
      [42, 50, 13, 10, 36, 51, 13, 10, 71, 69, 84, 13, 10] [50]
      [36, 51, 13, 10, 71, 69, 84, 13, 10] 2 1 [GET] []
      (by decide) (by decide) (by decide) (by decide) (by decide) (by decide)).2.1 rfl⟩

/-- C13 as stated fails: the inputs "*2\r\n" and "*2\r\n$3\r\n" end after a valid
count line and before the two blocks are complete, and `readCommand` returns
`io.EOF`, the clean stream-end condition; `serve` takes the branch of
main.go:80, not the I/O-error branch. -/
theorem C13_counterexample_clean_end_inside_command :
    readCommand [42, 50, 13, 10] = .err .EOF [] ∧
    serve store.empty [42, 50, 13, 10] = some ⟨[], store.empty, .disconnected⟩ ∧
    readCommand [42, 50, 13, 10, 36, 51, 13, 10] = .err .EOF [] ∧
    serve store.empty [42, 50, 13, 10, 36, 51, 13, 10]
      = some ⟨[], store.empty, .disconnected⟩ := by
  refine ⟨by decide, rfl, by decide, rfl⟩

/-- C14 (as amended): inside a multi-bulk command whose argument slice is made
(count `argc` with `2 <= argc` and `16 * argc <= 2^48`), for every length line
"$L" whose `L` parses and whose buffer of `L + 2` bytes is within the
allocator's ceiling (`L + 2 <= 2^48`), and every stream holding at least
`L + 2` further bytes: the size `(L + 2) mod 2^64` is `L + 2`, the loop
consumes exactly `L + 2` bytes behind the line, the argument appended is
exactly the first `L` of them, and `readCommand` goes on with the remaining
blocks from there. -/
theorem C14_declared_length_honoured (input t r0 : Bytes) (argc k j : Nat)
    (acc : List Bytes) (r1 u r2 : Bytes) (argLen : Nat)
    (hcount : readLine input = .ok (42 :: t) r0)
    (hparse : ParseUint t = some argc) (h2 : 2 ≤ argc) (hmax : 16 * argc ≤ maxAlloc)
    (hsplit : argc = k + (j + 1))
    (hprev : readArgs k r0 [] = .ok acc r1)
    (hline : readLine r1 = .ok (36 :: u) r2)
    (hlen : ParseUint u = some argLen)
    (hfit : argLen + 2 ≤ maxAlloc)
    (hfull : argLen + 2 ≤ r2.length) :
    (argLen + 2) % 2 ^ 64 = argLen + 2 ∧
    readArgs (j + 1) r1 acc = readArgs j (r2.drop (argLen + 2)) (acc ++ [r2.take argLen]) ∧
    readCommand input =
      match readArgs j (r2.drop (argLen + 2)) (acc ++ [r2.take argLen]) with
      | .err e rest2 => .err e rest2
      | .panic p => .panic p
      | .ok [] _ => .panic .indexOutOfRange
      | .ok (name :: args) rest2 => .ok ⟨name, args⟩ rest2 := by
  have hm : (argLen + 2) % 2 ^ 64 = argLen + 2 := by
    simp only [maxAlloc] at hfit
    exact Nat.mod_eq_of_lt (by omega)
  have hb := readArgs_block j r1 u r2 acc argLen hline hlen (by rw [hm]; exact hfit)
    (by rw [hm]; omega) (by rw [hm]; exact hfull)
  rw [hm] at hb
  simp only [Nat.add_sub_cancel] at hb
  refine ⟨hm, hb, ?_⟩
  rw [readCommand_after_blocks input t r0 argc k (j + 1) acc r1 hcount hparse h2 hmax hsplit
    hprev, hb]

/-- Witness for C14: in "*2\r\n$3\r\nGET\r\n$1\r\nk\r\nZ" the second block
declares one byte; three bytes are consumed and "Z" stays. -/
theorem C14_declared_length_honoured_witness :
    (1 + 2) % 2 ^ 64 = 1 + 2 ∧
    readArgs (0 + 1) [36, 49, 13, 10, 107, 13, 10, 90] [GET]
      = readArgs 0 (List.drop (1 + 2) [107, 13, 10, 90]) ([GET] ++ [List.take 1 [107, 13, 10, 90]]) ∧
    readCommand [42, 50, 13, 10, 36, 51, 13, 10, 71, 69, 84, 13, 10, 36, 49, 13, 10, 107, 13, 10,
        90] =
      match readArgs 0 (List.drop (1 + 2) [107, 13, 10, 90])
          ([GET] ++ [List.take 1 [107, 13, 10, 90]]) with
      | .err e rest2 => .err e rest2
      | .panic p => .panic p
      | .ok [] _ => .panic .indexOutOfRange
      | .ok (name :: args) rest2 => .ok ⟨name, args⟩ rest2 :=
  C14_declared_length_honoured
    [42, 50, 13, 10, 36, 51, 13, 10, 71, 69, 84, 13, 10, 36, 49, 13, 10, 107, 13, 10, 90]
    [50] [36, 51, 13, 10, 71, 69, 84, 13, 10, 36, 49, 13, 10, 107, 13, 10, 90] 2 1 0 [GET]
    [36, 49, 13, 10, 107, 13, 10, 90] [49] [107, 13, 10, 90] 1
    (by decide) (by decide) (by decide) (by decide) (by decide) (by decide) (by decide)
    (by decide) (by decide) (by decide)

/-- C14 as stated fails for accepted lengths whose buffer is above the
allocator's ceiling or whose size wraps around.  For "$18446744073709551615"
(`2^64 - 1`) the size `argLen + 2` wraps around to 1: one byte is read and the
slice expression panics, with `2^64 + 1` bytes in the stream.  For
"$9223372036854775806" (`2^63 - 2`) and already for "$281474976710655"
(`2^48 - 1`) `make` panics, with `L + 2` bytes in the stream. -/
theorem C14_counterexample_length_wraps :
    readCommand ([42, 50] ++ 13 :: 10 ::
        ((36 :: [49, 56, 52, 52, 54, 55, 52, 52, 48, 55, 51, 55, 48, 57, 53, 53, 49, 54, 49, 53])
          ++ 13 :: 10 :: List.replicate 18446744073709551617 0))
      = .panic .sliceBounds ∧
    readCommand ([42, 50] ++ 13 :: 10 ::
        ((36 :: [57, 50, 50, 51, 51, 55, 50, 48, 51, 54, 56, 53, 52, 55, 55, 53, 56, 48, 54])
          ++ 13 :: 10 :: List.replicate 9223372036854775808 0))
      = .panic .makesliceLen ∧
    readCommand ([42, 50] ++ 13 :: 10 ::
        ((36 :: [50, 56, 49, 52, 55, 52, 57, 55, 54, 55, 49, 48, 54, 53, 53])
          ++ 13 :: 10 :: List.replicate 281474976710657 0))
      = .panic .makesliceLen := by
  refine ⟨?_, ?_, ?_⟩
  · apply readCommand_first_slice_panic _ _ 18446744073709551615
    · decide
    · decide
    · decide
    · rw [List.length_replicate]; decide
  · apply readCommand_first_makeslice _ _ 9223372036854775806
    · decide
    · decide
    · decide
  · apply readCommand_first_makeslice _ _ 281474976710655
    · decide
    · decide
    · decide

/-- C15: when the sessions' calls `Set(k, v)`, one for each value of `vs` (at
least one), take effect one at a time in any order `order` (any rearrangement
of `vs`), then `Get(k)` after all of them returns the value written last in
that order, which is one of the values of `vs`. -/
theorem C15_concurrent_writers (s : store) (k : Bytes) (vs order : List Bytes)
    (hne : vs ≠ []) (hperm : order.Perm vs) :
    (setInOrder s k order).Get k ∈ vs ∧
    order.getLast? = some ((setInOrder s k order).Get k) := by
  have hone : order ≠ [] := fun h => hne (by rw [h] at hperm; exact hperm.symm.eq_nil)
  rcases List.eq_nil_or_concat order with h | ⟨l, v, h⟩
  · exact absurd h hone
  · have hg : (setInOrder s k order).Get k = v := by
      rw [h, List.concat_eq_append, setInOrder_concat, store_Get_Set_same]
    have hv : v ∈ order := by rw [h]; simp
    refine ⟨by rw [hg]; exact hperm.subset hv, ?_⟩
    rw [hg, h]
    simp

/-- Witness for C15: three sessions write "a", "b", "c" to the key "k"; in the
order b, c, a the value read afterwards is "a". -/
theorem C15_concurrent_writers_witness :
    (setInOrder store.empty [107] [[98], [99], [97]]).Get [107] ∈ [[97], [98], [99]] ∧
    [[98], [99], [97]].getLast? =
      some ((setInOrder store.empty [107] [[98], [99], [97]]).Get [107]) :=
  C15_concurrent_writers store.empty [107] [[97], [98], [99]] [[98], [99], [97]]
    (by decide) (by decide)

/-- C16: for every multi-bulk request and every choice of two closing bytes for
each argument block, `readCommand` on the request with these closing bytes
returns a command exactly when it does on the request closed by "\r\n", and
then it is the same command (same Name, same Args) with the same input left
unread; the two requests have the same length, so the same amount of input is
consumed.  A request with at least two blocks whose count and buffers are
within the allocator's ceiling does decode, under both closings, to the command
whose Name is the first payload and whose Args are the others. -/
theorem C16_terminator_not_validated (blocks : List (Bytes × (Nat × Nat))) (rest : Bytes) :
    (∀ cmd r, readCommand (multiBulkWith blocks ++ rest) = .ok cmd r ↔
        readCommand (multiBulk (blocks.map Prod.fst) ++ rest) = .ok cmd r) ∧
    (multiBulkWith blocks).length = (multiBulk (blocks.map Prod.fst)).length ∧
    (2 ≤ blocks.length → 16 * blocks.length ≤ maxAlloc →
      (∀ b ∈ blocks, b.1.length + 2 ≤ maxAlloc) →
      readCommand (multiBulkWith blocks ++ rest)
        = .ok ⟨(blocks.map Prod.fst).headD [], (blocks.map Prod.fst).tail⟩ rest ∧
      readCommand (multiBulk (blocks.map Prod.fst) ++ rest)
        = .ok ⟨(blocks.map Prod.fst).headD [], (blocks.map Prod.fst).tail⟩ rest) := by
  have hfst : ((blocks.map Prod.fst).map (fun a => (a, ((13 : Nat), (10 : Nat))))).map Prod.fst
      = blocks.map Prod.fst := by
    simp [Function.comp_def]
  have hmem : (∀ b ∈ blocks, b.1.length + 2 ≤ maxAlloc) ↔
      ∀ b ∈ (blocks.map Prod.fst).map (fun a => (a, ((13 : Nat), (10 : Nat)))),
        b.1.length + 2 ≤ maxAlloc := by
    constructor
    · intro h b hb
      simp only [List.mem_map] at hb
      obtain ⟨a, ⟨c, hc, rfl⟩, rfl⟩ := hb
      exact h c hc
    · intro h b hb
      exact h (b.1, (13, 10)) (by
        simp only [List.mem_map]
        exact ⟨b.1, ⟨b, hb, rfl⟩, rfl⟩)
  have pos : 2 ≤ blocks.length → 16 * blocks.length ≤ maxAlloc →
      (∀ b ∈ blocks, b.1.length + 2 ≤ maxAlloc) →
      readCommand (multiBulkWith blocks ++ rest)
        = .ok ⟨(blocks.map Prod.fst).headD [], (blocks.map Prod.fst).tail⟩ rest ∧
      readCommand (multiBulk (blocks.map Prod.fst) ++ rest)
        = .ok ⟨(blocks.map Prod.fst).headD [], (blocks.map Prod.fst).tail⟩ rest := by
    intro hn hcount hlen
    refine ⟨readCommand_multiBulkWith_ok blocks rest hn hcount hlen, ?_⟩
    have := readCommand_multiBulkWith_ok
      ((blocks.map Prod.fst).map (fun a => (a, ((13 : Nat), (10 : Nat))))) rest
      (by simpa using hn) (by simpa using hcount) (hmem.1 hlen)
    rw [hfst, ← multiBulk_eq_multiBulkWith] at this
    exact this
  refine ⟨fun cmd r => ⟨fun h => ?_, fun h => ?_⟩, ?_, pos⟩
  · obtain ⟨hn, hcount, hlen⟩ := readCommand_multiBulkWith_ok_bounds blocks rest cmd r h
    obtain ⟨p1, p2⟩ := pos hn hcount hlen
    rw [p1] at h
    rw [p2]
    exact h
  · rw [multiBulk_eq_multiBulkWith] at h
    obtain ⟨hn, hcount, hlen⟩ := readCommand_multiBulkWith_ok_bounds _ rest cmd r h
    rw [← multiBulk_eq_multiBulkWith] at h
    obtain ⟨p1, p2⟩ := pos (by simpa using hn) (by simpa using hcount) (hmem.2 hlen)
    rw [p2] at h
    rw [p1]
    exact h
  · simp only [multiBulkWith, multiBulk, List.length_append, List.length_map,
      bulksWith_length]

/-- Witness for C16: GET k with the closing bytes "xy" and "\n\n", followed by
the byte "Z". -/
theorem C16_terminator_not_validated_witness :
    readCommand (multiBulkWith [(GET, ((120 : Nat), (121 : Nat))), ([107], (10, 10))] ++ [90])
      = .ok ⟨GET, [[107]]⟩ [90] ∧
    readCommand (multiBulk [GET, [107]] ++ [90]) = .ok ⟨GET, [[107]]⟩ [90] :=
  (C16_terminator_not_validated [(GET, ((120 : Nat), (121 : Nat))), ([107], (10, 10))] [90]).2.2
    (by decide) (by decide) (by decide)

/-- C17: for every store `s` and every request line that does not begin with
"*", the command decoded has no arguments and its handling writes an Error
reply ("-ERR " ++ m ++ "\r\n" for some message `m`), never a bulk reply or
"+OK\r\n", and does not change the store: either `serve` returns with that reply
and the store `s`, or it goes on with the remaining input from the same store
`s`. -/
theorem C17_inline_never_touches_store (s : store) (input line rest : Bytes)
    (hline : readLine input = .ok line rest) (hstar : line.head? ≠ some 42) :
    readCommand input = .ok ⟨line, []⟩ rest ∧
    ∃ m,
      (dispatch s ⟨line, []⟩ = .stop (ERR ++ m ++ CRLF) .arityError ∧
        serve s input = some ⟨ERR ++ m ++ CRLF, s, .arityError⟩) ∨
      (dispatch s ⟨line, []⟩ = .next (ERR ++ m ++ CRLF) s ∧
        ∃ r, serve s rest = some r ∧
          serve s input = some ⟨(ERR ++ m ++ CRLF) ++ r.out, r.store, r.exit⟩) := by
  have hc := readCommand_inline input line rest hline hstar
  refine ⟨hc, ?_⟩
  obtain ⟨m, hd | hd⟩ := dispatch_no_args s line
  · exact ⟨m, Or.inl ⟨hd, serve_stop s _ _ _ _ _ hc hd⟩⟩
  · obtain ⟨r, hr⟩ := serve_total s rest
    refine ⟨m, Or.inr ⟨hd, r, hr, ?_⟩⟩
    rw [serve_ok s input _ rest hc, hd]
    simp only [hr, Option.map_some', Session.after]

/-- Witness for C17: the request lines "GET k", "SET k v" and the empty line,
on a store that holds "v0" for the key "k". -/
theorem C17_inline_never_touches_store_witness :
    (readCommand [71, 69, 84, 32, 107, 13, 10] = .ok ⟨[71, 69, 84, 32, 107], []⟩ [] ∧
      ∃ m,
        (dispatch (store.empty.Set [107] [118, 48]) ⟨[71, 69, 84, 32, 107], []⟩
            = .stop (ERR ++ m ++ CRLF) .arityError ∧
          serve (store.empty.Set [107] [118, 48]) [71, 69, 84, 32, 107, 13, 10]
            = some ⟨ERR ++ m ++ CRLF, store.empty.Set [107] [118, 48], .arityError⟩) ∨
        (dispatch (store.empty.Set [107] [118, 48]) ⟨[71, 69, 84, 32, 107], []⟩
            = .next (ERR ++ m ++ CRLF) (store.empty.Set [107] [118, 48]) ∧
          ∃ r, serve (store.empty.Set [107] [118, 48]) [] = some r ∧
            serve (store.empty.Set [107] [118, 48]) [71, 69, 84, 32, 107, 13, 10]
              = some ⟨(ERR ++ m ++ CRLF) ++ r.out, r.store, r.exit⟩)) ∧
    (readCommand [83, 69, 84, 32, 107, 32, 118, 13, 10]
        = .ok ⟨[83, 69, 84, 32, 107, 32, 118], []⟩ [] ∧
      ∃ m,
        (dispatch (store.empty.Set [107] [118, 48]) ⟨[83, 69, 84, 32, 107, 32, 118], []⟩
            = .stop (ERR ++ m ++ CRLF) .arityError ∧
          serve (store.empty.Set [107] [118, 48]) [83, 69, 84, 32, 107, 32, 118, 13, 10]
            = some ⟨ERR ++ m ++ CRLF, store.empty.Set [107] [118, 48], .arityError⟩) ∨
        (dispatch (store.empty.Set [107] [118, 48]) ⟨[83, 69, 84, 32, 107, 32, 118], []⟩
            = .next (ERR ++ m ++ CRLF) (store.empty.Set [107] [118, 48]) ∧
          ∃ r, serve (store.empty.Set [107] [118, 48]) [] = some r ∧
            serve (store.empty.Set [107] [118, 48]) [83, 69, 84, 32, 107, 32, 118, 13, 10]
              = some ⟨(ERR ++ m ++ CRLF) ++ r.out, r.store, r.exit⟩)) ∧
    (readCommand [13, 10] = .ok ⟨[], []⟩ [] ∧
      ∃ m,
        (dispatch (store.empty.Set [107] [118, 48]) ⟨[], []⟩
            = .stop (ERR ++ m ++ CRLF) .arityError ∧
          serve (store.empty.Set [107] [118, 48]) [13, 10]
            = some ⟨ERR ++ m ++ CRLF, store.empty.Set [107] [118, 48], .arityError⟩) ∨
        (dispatch (store.empty.Set [107] [118, 48]) ⟨[], []⟩
            = .next (ERR ++ m ++ CRLF) (store.empty.Set [107] [118, 48]) ∧
          ∃ r, serve (store.empty.Set [107] [118, 48]) [] = some r ∧
            serve (store.empty.Set [107] [118, 48]) [13, 10]
              = some ⟨(ERR ++ m ++ CRLF) ++ r.out, r.store, r.exit⟩)) :=
  ⟨C17_inline_never_touches_store (store.empty.Set [107] [118, 48])
      [71, 69, 84, 32, 107, 13, 10] [71, 69, 84, 32, 107] [] (by decide) (by decide),
   C17_inline_never_touches_store (store.empty.Set [107] [118, 48])
      [83, 69, 84, 32, 107, 32, 118, 13, 10] [83, 69, 84, 32, 107, 32, 118] []
      (by decide) (by decide),
   C17_inline_never_touches_store (store.empty.Set [107] [118, 48])
      [13, 10] [] [] (by decide) (by decide)⟩

/-- C18 (the code at the failing inputs): on "*2\r\n$18446744073709551614\r\n"
the size `argLen + 2` wraps around to 0, the empty buffer is read and the slice
expression `arg[0:len(arg)-2]` is out of range: `readCommand` panics instead of
returning a command or an error, and `serve` ends in that panic with nothing
written.  On "*9223372036854775808\r\n" the count is accepted by the count
check and `make([]string, 0, argc)` panics. -/
theorem C18_readCommand_panics :
    readCommand [42, 50, 13, 10, 36, 49, 56, 52, 52, 54, 55, 52, 52, 48, 55, 51, 55, 48, 57, 53,
        53, 49, 54, 49, 52, 13, 10]
      = .panic .sliceBounds ∧
    serve store.empty [42, 50, 13, 10, 36, 49, 56, 52, 52, 54, 55, 52, 52, 48, 55, 51, 55, 48,
        57, 53, 53, 49, 54, 49, 52, 13, 10]
      = some ⟨[], store.empty, .panic .sliceBounds⟩ ∧
    readCommand [42, 57, 50, 50, 51, 51, 55, 50, 48, 51, 54, 56, 53, 52, 55, 55, 53, 56, 48, 56,
        13, 10]
      = .panic .makesliceCap := by
  refine ⟨by decide, ?_, by decide⟩
  exact serve_panic _ _ _ (by decide)

end GoRedis
